import Mathlib

/-!
Verification development for the data-labeller repository.

The TypeScript sources are shallowly embedded: pure computations become Lean
functions over `String`/`Int`/`List`, the sequential inference calls become an
explicit oracle argument (one response per call), and the browser key-value
store becomes an explicit state record.  JavaScript string primitives
(`split`, `trim`, `toLowerCase`, `includes`, `replace`) are embedded as
structural functions on character lists so that every definition evaluates
inside the kernel.
-/

/-- Embeds JavaScript `s.split(":")`: split on the separator character,
keeping empty parts (`"".split(":") = [""]`, `":".split(":") = ["", ""]`). -/
def splitColon (s : String) : List String :=
  (s.data.splitOn ':').map String.mk

/-- Embeds JavaScript `s.trim()`: drop leading and trailing whitespace. -/
def trimStr (s : String) : String :=
  String.mk (((s.data.dropWhile Char.isWhitespace).reverse.dropWhile
      Char.isWhitespace).reverse)

/-- Embeds JavaScript `s.toLowerCase()` on the ASCII range. -/
def lowerStr (s : String) : String :=
  String.mk (s.data.map Char.toLower)

/-- Character-list helper: does the second list start with the first? -/
def startsWithCL : List Char → List Char → Bool
  | [], _ => true
  | _ :: _, [] => false
  | a :: as, b :: bs => a == b && startsWithCL as bs

/-- Character-list helper: does the second list contain the first as a
contiguous run? -/
def includesCL (needle : List Char) : List Char → Bool
  | [] => startsWithCL needle []
  | h :: t => startsWithCL needle (h :: t) || includesCL needle t

/-- Embeds JavaScript `hay.includes(needle)`. -/
def strIncludes (hay needle : String) : Bool :=
  includesCL needle.data hay.data

/-- `DataItem` from `src/lib/labelingAgent.ts`. -/
structure DataItem where
  text : String
  id : String
deriving DecidableEq, Repr, Inhabited

/-- `LabelingIntent` from `src/lib/labelingAgent.ts` (the API-side shape:
each category is a single descriptor string). -/
structure LabelingIntent where
  datasetDescription : String
  labelCategories : List String
  guidelines : String
deriving DecidableEq, Repr, Inhabited

/-- `LabelResult` from `src/lib/labelingAgent.ts`.  The extra
`needsLLMReasoning` field models the dynamic property attached by
`postProcessResults` in `src/hooks/useLabelingService.ts`; a result that
never carried the property is modelled with the field set to `false`
(JavaScript `undefined` is falsy). -/
structure LabelResult where
  itemId : String
  label : String
  confidence : Int
  reasoning : String
  uncertaintyExplanation : Option String
  needsReview : Bool
  needsLLMReasoning : Bool
deriving DecidableEq, Repr, Inhabited

/-- `BatchLabelingResult` from `src/lib/labelingAgent.ts`.  Wall-clock fields
(`completedAt`, `processingTimeMs`) are environment-dependent and modelled as
inert values. -/
structure BatchLabelingResult where
  results : List LabelResult
  completedAt : String
  processingTimeMs : Int
  totalItems : Nat
  reviewNeeded : Nat
deriving DecidableEq, Repr, Inhabited

/-- The JSON object extracted from one model answer (`result` in
`labelDataItem` / one entry of `batchResults` in `labelDataBatch`): each field
may be absent. -/
structure ParsedLabel where
  label : Option String
  confidence : Option Int
  reasoning : Option String
  uncertainty_explanation : Option String
deriving DecidableEq, Repr, Inhabited

/-- Outcome of one inference round-trip, as seen after the
extract-JSON-and-parse step of `labelDataItem` / `labelDataBatch`:
`failure` covers a thrown network error, a missing JSON match and an
unparseable match (all reach the same `catch`); `parsedBatch` entries are
`none` where the parsed array has no (or a null) element at that index. -/
inductive InferResponse where
  | failure (msg : String)
  | parsedSingle (o : ParsedLabel)
  | parsedBatch (os : List (Option ParsedLabel))
deriving DecidableEq, Repr, Inhabited

/-- `result.label || ""`. -/
def labelOrEmpty (o : ParsedLabel) : String :=
  match o.label with
  | some s => s
  | none => ""

/-- String interpolation `"${result.label}"` (an absent field prints as
`undefined`). -/
def labelForTemplate (o : ParsedLabel) : String :=
  match o.label with
  | some s => s
  | none => "undefined"

/-- The templated fallback sentence used when the model omits `reasoning`. -/
def defaultReasoning (o : ParsedLabel) : String :=
  "This item was classified as \"" ++ labelForTemplate o ++
    "\" based on the content and the provided labeling guidelines."

/-- `!reasoning || reasoning.trim().length === 0 ? template : reasoning`. -/
def reasoningOrDefault (o : ParsedLabel) : String :=
  match o.reasoning with
  | some s => if (trimStr s).data.length = 0 then defaultReasoning o else s
  | none => defaultReasoning o

/-- `typeof result.confidence === "number" ? result.confidence : 75`. -/
def confidenceOrDefault (o : ParsedLabel) : Int :=
  match o.confidence with
  | some c => c
  | none => 75

/-- The guard of the label-repair block: split on `:`, trim the parts, and
test for exactly two equal parts (`labelParts.length === 2 &&
labelParts[0] === labelParts[1]`). -/
def degenerateParts (label : String) : Bool :=
  let labelParts := (splitColon label).map trimStr
  labelParts.length == 2 && labelParts.getD 0 "" == labelParts.getD 1 ""

/-- The label-repair block of `labelDataItem` / `labelDataBatch` with its
unbound identifier `labelCategories` read as `intent.labelCategories` — the
evident intent of the code (the enclosing functions receive `intent` and the
comments speak of "the provided categories").  At runtime the identifier is
unbound, so the block instead raises a `ReferenceError` whenever the
degenerate-parts guard holds; see `labelDataItem` below. -/
def fixLabelIntended (labelCategories : List String) (label : String) : String :=
  let labelParts := (splitColon label).map trimStr
  if labelParts.length == 2 && labelParts.getD 0 "" == labelParts.getD 1 "" then
    match labelCategories.find?
        (fun cat => strIncludes (lowerStr cat) (lowerStr (labelParts.getD 0 ""))) with
    | some matchingCategory =>
        trimStr ((splitColon matchingCategory).getD 0 "") ++ ": " ++ labelParts.getD 1 ""
    | none => label
  else label

/-- The fallback result built in the `catch` of `labelDataItem`. -/
def itemErrorResult (item : DataItem) (msg : String) : LabelResult :=
  { itemId := item.id
    label := "Error: Needs Manual Review"
    confidence := 0
    reasoning := "The AI model encountered an error while processing this item. Error details: " ++
      msg ++ ". Please assign a label manually."
    uncertaintyExplanation := some "This item requires manual labeling due to processing errors."
    needsReview := true
    needsLLMReasoning := false }

/-- Message of the `ReferenceError` raised by the repair block's unbound
`labelCategories` identifier. -/
def referenceErrorMsg : String := "labelCategories is not defined"

/-- `labelDataItem` from `src/lib/labelingAgent.ts`, with the inference call
replaced by its outcome `resp`.  When the parsed label satisfies the
degenerate-parts guard, the repair block evaluates the unbound identifier
`labelCategories`; the `ReferenceError` is caught by the function's own
try/catch, which returns the fallback result. -/
def labelDataItem (item : DataItem) (_intent : LabelingIntent)
    (resp : InferResponse) : LabelResult :=
  match resp with
  | .failure msg => itemErrorResult item msg
  | .parsedBatch _ => itemErrorResult item "Failed to parse AI response"
  | .parsedSingle o =>
    if degenerateParts (labelOrEmpty o) then
      itemErrorResult item referenceErrorMsg
    else
      { itemId := item.id
        label := labelOrEmpty o
        confidence := confidenceOrDefault o
        reasoning := reasoningOrDefault o
        uncertaintyExplanation := o.uncertainty_explanation
        needsReview := decide (confidenceOrDefault o < 70)
        needsLLMReasoning := false }

/-- The fallback result pushed for each item of a failed chunk (the `catch`
of `labelDataBatch`). -/
def batchErrorResult (item : DataItem) (msg : String) : LabelResult :=
  { itemId := item.id
    label := "Error: Needs Manual Review"
    confidence := 0
    reasoning := "The AI model encountered an error while processing this batch of items. Error details: " ++
      msg ++ ". Please assign a label manually."
    uncertaintyExplanation := some "This item requires manual labeling due to batch processing errors."
    needsReview := true
    needsLLMReasoning := false }

/-- Building one batch-path result for an item whose array entry is present.
As in the single-item path, the repair block dereferences the unbound
identifier `labelCategories` when the degenerate-parts guard holds, so result
construction raises a `ReferenceError` there. -/
def batchItemResult (item : DataItem) (o : ParsedLabel) : Except String LabelResult :=
  if degenerateParts (labelOrEmpty o) then .error referenceErrorMsg
  else .ok
    { itemId := item.id
      label := labelOrEmpty o
      confidence := confidenceOrDefault o
      reasoning := reasoningOrDefault o
      uncertaintyExplanation := o.uncertainty_explanation
      needsReview := decide (confidenceOrDefault o < 70)
      needsLLMReasoning := false }

/-- The `batch.forEach((item, index) => ...)` loop of `labelDataBatch`:
an item whose entry is absent from the parsed array (or null) is silently
skipped (`if (!result) return`); an exception raised mid-loop aborts the loop
but the results already pushed onto the shared array stay (they are carried
in the `error` payload together with the message). -/
def mapBatchResults (os : List (Option ParsedLabel)) :
    List DataItem → Nat → Except (String × List LabelResult) (List LabelResult)
  | [], _ => .ok []
  | item :: rest, idx =>
    match os.getD idx none with
    | none => mapBatchResults os rest (idx + 1)
    | some o =>
      match batchItemResult item o with
      | .error msg => .error (msg, [])
      | .ok r =>
        match mapBatchResults os rest (idx + 1) with
        | .ok rs => .ok (r :: rs)
        | .error (m, doneRs) => .error (m, r :: doneRs)

/-- Processing of one chunk inside `labelDataBatch`: a single-item chunk goes
through `labelDataItem`; a larger chunk parses the response as an array and
maps it positionally; any exception inside the chunk's `try` is converted to
one `batchErrorResult` per item of the chunk. -/
def processChunk (intent : LabelingIntent) (batch : List DataItem)
    (resp : InferResponse) : List LabelResult :=
  match batch with
  | [item] => [labelDataItem item intent resp]
  | _ =>
    match resp with
    | .failure msg => batch.map (fun item => batchErrorResult item msg)
    | .parsedSingle _ =>
        batch.map (fun item => batchErrorResult item "Failed to parse AI batch response")
    | .parsedBatch os =>
      match mapBatchResults os batch 0 with
      | .ok rs => rs
      | .error (msg, doneRs) => doneRs ++ batch.map (fun item => batchErrorResult item msg)

/-- Fuel-driven chunking; with fuel at least the list length and a positive
chunk size this computes the `for (let i = 0; i < items.length; i += batchSize)`
slicing of `labelDataBatch`.  (With chunk size 0 the source loop would never
terminate; all theorems below assume a positive chunk size.) -/
def chunksOfFuel {α : Type} : Nat → Nat → List α → List (List α)
  | 0, _, _ => []
  | _ + 1, _, [] => []
  | fuel + 1, b, xs => xs.take b :: chunksOfFuel fuel b (xs.drop b)

/-- `items` split into consecutive chunks of size `b`. -/
def chunksOf {α : Type} (b : Nat) (xs : List α) : List (List α) :=
  chunksOfFuel xs.length b xs

/-- `labelDataBatch` from `src/lib/labelingAgent.ts`.  Chunks are processed
strictly sequentially; `env i` is the outcome of the i-th chunk's inference
call.  Wall-clock timing fields are modelled as inert values. -/
def labelDataBatch (items : List DataItem) (intent : LabelingIntent)
    (env : Nat → InferResponse) (batchSize : Nat) : BatchLabelingResult :=
  let batches := chunksOf batchSize items
  let results := batches.enum.foldl
    (fun acc p => acc ++ processChunk intent p.2 (env p.1)) []
  { results := results
    completedAt := ""
    processingTimeMs := 0
    totalItems := items.length
    reviewNeeded := (results.filter (·.needsReview)).length }

/-- The request body of `POST /api/label`: either field may be absent. -/
structure LabelRequest where
  data : Option (List DataItem)
  intent : Option LabelingIntent
deriving Inhabited

/-- The handler's response: a 400 with an error message, or the labeling
result.  (The handler's 500 branch fires only for exceptions escaping the
body, e.g. an unreadable request body, which the typed model cannot produce.) -/
inductive ApiResponse where
  | badRequest (error : String)
  | ok (result : BatchLabelingResult)
deriving DecidableEq, Repr, Inhabited

/-- `handleLabelingRequest` from the labeling API module.  The second
component counts the inference calls issued (one per chunk of
`labelDataBatch`); validation failures return before any call is made. -/
def handleLabelingRequest (body : LabelRequest) (env : Nat → InferResponse) :
    ApiResponse × Nat :=
  match body.data, body.intent with
  | some data, some intent =>
    if data.length = 0 ∨ data.length > 100 then
      (.badRequest "Data must be an array with 1-100 items", 0)
    else if intent.datasetDescription = "" ∨ intent.labelCategories.length = 0 then
      (.badRequest "Intent must include datasetDescription and at least one labelCategory", 0)
    else
      let batchSize := if data.length ≤ 5 then 1 else 5
      (.ok (labelDataBatch data intent env batchSize), (chunksOf batchSize data).length)
  | _, _ => (.badRequest "Missing required fields: data and intent", 0)

/-- `LabelOption` from the intent-capture component. -/
structure LabelOption where
  name : String
  description : String
deriving DecidableEq, Repr, Inhabited

/-- `LabelCategory` from the intent-capture component. -/
structure LabelCategory where
  type : String
  guideline : String
  options : List LabelOption
deriving DecidableEq, Repr, Inhabited

/-- The client-side `LabelingIntent` (structured categories). -/
structure ClientLabelingIntent where
  datasetDescription : String
  labelCategories : List LabelCategory
  generalGuidelines : String
deriving DecidableEq, Repr, Inhabited

/-- One step of the `results.reduce` grouping in `postProcessResults`:
append the result to its item's group, creating the group at the end on
first sight (JavaScript object keys preserve insertion order). -/
def pushGroup (acc : List (String × List LabelResult)) (r : LabelResult) :
    List (String × List LabelResult) :=
  match acc with
  | [] => [(r.itemId, [r])]
  | (k, rs) :: rest =>
    if k == r.itemId then (k, rs ++ [r]) :: rest
    else (k, rs) :: pushGroup rest r

/-- `groupedByItem` of `postProcessResults`. -/
def groupByItem (results : List LabelResult) : List (String × List LabelResult) :=
  results.foldl pushGroup []

/-- `r.label.split(":")[0].trim()` — the category type represented by a
label. -/
def labelType (r : LabelResult) : String :=
  trimStr ((splitColon r.label).getD 0 "")

/-- The `usedLabelTypes` set of an item, as a duplicate-free list (only
membership and size are consumed). -/
def representedTypes (itemResults : List LabelResult) : List String :=
  (itemResults.map labelType).dedup

/-- The placeholder result synthesized by the Coverage Enhancer for an
uncovered category. -/
def placeholderResult (itemId : String) (category : LabelCategory) : LabelResult :=
  { itemId := itemId
    label := category.type ++ ": " ++ (category.options.getD 0 ⟨"", ""⟩).name
    confidence := 0
    reasoning := "[This label was added automatically to ensure all categories are covered. Please review and update as needed.]"
    uncertaintyExplanation := some "This label was automatically added and requires human verification."
    needsReview := true
    needsLLMReasoning := true }

/-- The synthesis loop of `postProcessResults` for one item: guarded by
`labelCategories.length > 1 && usedLabelTypes.size < labelCategories.length`,
it pushes one placeholder per declared category that is absent from the
represented types and has at least one option. -/
def synthForItem (intent : ClientLabelingIntent) (itemId : String)
    (itemResults : List LabelResult) : List LabelResult :=
  if intent.labelCategories.length > 1 ∧
      (representedTypes itemResults).length < intent.labelCategories.length then
    intent.labelCategories.foldl
      (fun acc category =>
        if category.type ∉ representedTypes itemResults ∧ category.options ≠ [] then
          acc ++ [placeholderResult itemId category]
        else acc) []
  else []

/-- `postProcessResults` from `src/hooks/useLabelingService.ts` (the Coverage
Enhancer): group by item, emit the original results of each item followed by
its synthesized placeholders. -/
def postProcessResults (results : List LabelResult)
    (intent : ClientLabelingIntent) (_data : List DataItem) : List LabelResult :=
  (groupByItem results).foldl
    (fun acc p => acc ++ p.2 ++ synthForItem intent p.1 p.2) []

/-- One value of the backfill response object: either a legacy bare string or
a structured record whose fields may be absent. -/
inductive BackfillEntry where
  | str (s : String)
  | obj (reasoning : Option String) (confidence : Option Int) (uncertainty : Option String)
deriving DecidableEq, Repr, Inhabited

/-- Outcome of one backfill round-trip for one item: a thrown/failed request
(or unparseable completion), or the parsed JSON object keyed by label
string. -/
inductive BackfillOutcome where
  | failure (msg : String)
  | success (response : List (String × BackfillEntry))
deriving DecidableEq, Repr, Inhabited

/-- `reasoningJson[labelInfo.label]`. -/
def lookupEntry (response : List (String × BackfillEntry)) (label : String) :
    Option BackfillEntry :=
  match response.find? (fun p => p.1 == label) with
  | some p => some p.2
  | none => none

/-- JavaScript truthiness of `labelData` (`if (labelData)`): an empty string
is falsy, every object is truthy. -/
def entryTruthy : BackfillEntry → Bool
  | .str s => !(s == "")
  | .obj _ _ _ => true

/-- The in-place update of one flagged result from a backfill entry:
`reasoning || prev`, `confidence || prev` (JavaScript `||`, so empty string
and 0 fall back), `uncertaintyExplanation` overwritten,
`needsReview = confidence < 70 || prev` (with an absent confidence comparing
false), and the flag cleared.  A bare string entry is first normalized to
`{reasoning: s, confidence: 75}`. -/
def applyEntry (entry : BackfillEntry) (prev : LabelResult) : LabelResult :=
  match entry with
  | .str s =>
    { prev with
      reasoning := if s == "" then prev.reasoning else s
      confidence := 75
      uncertaintyExplanation := none
      needsReview := decide ((75 : Int) < 70) || prev.needsReview
      needsLLMReasoning := false }
  | .obj r c u =>
    { prev with
      reasoning :=
        match r with
        | some s => if s == "" then prev.reasoning else s
        | none => prev.reasoning
      confidence :=
        match c with
        | some cv => if cv == 0 then prev.confidence else cv
        | none => prev.confidence
      uncertaintyExplanation := u
      needsReview := (match c with | some cv => decide (cv < 70) | none => false) ||
        prev.needsReview
      needsLLMReasoning := false }

/-- The generic fallback applied to a flagged result when its item's backfill
round-trip fails. -/
def backfillFailUpdate (prev : LabelResult) : LabelResult :=
  { prev with
    reasoning := "This label was suggested for this content based on the labeling guidelines. Please review and update as needed."
    confidence := max 60 prev.confidence
    uncertaintyExplanation := some "There was an issue generating detailed analysis for this label."
    needsReview := true
    needsLLMReasoning := false }

/-- `updatedResults[idx] = f(updatedResults[idx])` (no effect on an
out-of-range index). -/
def setWith (arr : List LabelResult) (idx : Nat) (f : LabelResult → LabelResult) :
    List LabelResult :=
  match arr[idx]? with
  | some prev => arr.set idx (f prev)
  | none => arr

/-- One step of building `itemsToProcess`: push a `(index, label)` entry onto
the (insertion-ordered) group of its item. -/
def pushPending (acc : List (String × DataItem × List (Nat × String)))
    (itemId : String) (item : DataItem) (entry : Nat × String) :
    List (String × DataItem × List (Nat × String)) :=
  match acc with
  | [] => [(itemId, item, [entry])]
  | (k, it, ls) :: rest =>
    if k == itemId then (k, it, ls ++ [entry]) :: rest
    else (k, it, ls) :: pushPending rest itemId item entry

/-- One step of the grouping phase of `generateReasoningForLabels`: a flagged
result whose item occurs in `data` contributes the entry
`(results.findIndex(same itemId and label), label)` to its item's group;
a flagged result of an unknown item is skipped. -/
def pendingStep (results : List LabelResult) (data : List DataItem)
    (acc : List (String × DataItem × List (Nat × String))) (r : LabelResult) :
    List (String × DataItem × List (Nat × String)) :=
  match data.find? (fun d => d.id == r.itemId) with
  | none => acc
  | some item =>
    match results.findIdx? (fun q => q.itemId == r.itemId && q.label == r.label) with
    | some originalIndex => pushPending acc r.itemId item (originalIndex, r.label)
    | none => acc

/-- The `itemsToProcess` map of `generateReasoningForLabels`, grouping the
flagged results by item id in insertion order. -/
def itemsToProcess (results : List LabelResult) (data : List DataItem) :
    List (String × DataItem × List (Nat × String)) :=
  (results.filter (·.needsLLMReasoning)).foldl (pendingStep results data) []

/-- Applying one item's backfill outcome to the shared results array: on
success each entry present (and truthy) in the response object updates its
recorded index; on failure every recorded index gets the generic
fallback. -/
def applyItemOutcome (arr : List LabelResult) (labels : List (Nat × String)) :
    BackfillOutcome → List LabelResult
  | .failure _ => labels.foldl (fun a p => setWith a p.1 backfillFailUpdate) arr
  | .success response =>
    labels.foldl
      (fun a p =>
        match lookupEntry response p.2 with
        | some entry => if entryTruthy entry then setWith a p.1 (applyEntry entry) else a
        | none => a) arr

/-- `generateReasoningForLabels` from `src/hooks/useLabelingService.ts`
(Reasoning Backfill): group flagged labels by item, then one sequential
round-trip per item (`oracle` maps the item id to the round-trip's
outcome). -/
def generateReasoningForLabels (results : List LabelResult)
    (_intent : ClientLabelingIntent) (data : List DataItem)
    (oracle : String → BackfillOutcome) : List LabelResult :=
  if (results.filter (·.needsLLMReasoning)).length = 0 then results
  else (itemsToProcess results data).foldl
    (fun arr p => applyItemOutcome arr p.2.2 (oracle p.1)) results

/-- The client-side tail of `labelData`: post-process the API result, backfill
reasoning when any result is flagged, and store the processed results back —
`reviewNeeded` is left untouched. -/
def labelDataPipeline (resultData : BatchLabelingResult)
    (intent : ClientLabelingIntent) (data : List DataItem)
    (oracle : String → BackfillOutcome) : BatchLabelingResult :=
  let processed0 := postProcessResults resultData.results intent data
  let processed :=
    if (processed0.filter (·.needsLLMReasoning)).length > 0 then
      generateReasoningForLabels processed0 intent data oracle
    else processed0
  { resultData with results := processed, processingTimeMs := 0 }

/-- `updateLabel` from `src/hooks/useLabelingService.ts`: a human-verified
label is confirmed (confidence 100, no review) and `reviewNeeded` is
recomputed as the number of results still flagged for review. -/
def updateLabel (results : BatchLabelingResult) (itemId newLabel : String) :
    BatchLabelingResult :=
  let updatedResults := results.results.map
    (fun r =>
      if r.itemId == itemId && r.label == newLabel then
        { r with needsReview := false, confidence := 100 }
      else r)
  { results with
    results := updatedResults
    reviewNeeded := (updatedResults.filter (·.needsReview)).length }

/-- The character-level escape underlying `s.replace(/"/g, '""')`. -/
def escapeCL (l : List Char) : List Char :=
  l.foldr (fun c acc => if c == '"' then '"' :: '"' :: acc else c :: acc) []

/-- JavaScript `s.replace(/"/g, '""')`. -/
def escapeQuotes (s : String) : String :=
  String.mk (escapeCL s.data)

/-- JavaScript `parts.join(sep)`. -/
def joinSep (sep : String) : List String → String
  | [] => ""
  | [s] => s
  | s :: rest => s ++ sep ++ joinSep sep rest

/-- One CSV data row of `exportToCsv`
(`[itemId, quoted label, confidence, quoted reasoning, yes/no].join(",")`). -/
def csvRow (r : LabelResult) : String :=
  joinSep ","
    [r.itemId,
     "\"" ++ escapeQuotes r.label ++ "\"",
     toString r.confidence,
     "\"" ++ escapeQuotes r.reasoning ++ "\"",
     if r.needsReview then "Yes" else "No"]

/-- The CSV header row (with its trailing newline, as in the source). -/
def csvHeader : String := "ItemId,Label,Confidence,Reasoning,NeedsReview\n"

/-- `exportToCsv` from `src/hooks/useLabelingService.ts`. -/
def exportToCsv (results : BatchLabelingResult) : String :=
  if results.results.length = 0 then "No data available for export"
  else csvHeader ++ joinSep "\n" (results.results.map csvRow)

/-- A record-splitting CSV scan (RFC-4180 style): a double quote toggles the
in-quotes state (so an escaped `""` toggles twice and returns), and a newline
outside quotes ends a record.  Returns the final state and the number of
record-ending newlines. -/
def csvScan : Bool → List Char → Bool × Nat
  | q, [] => (q, 0)
  | q, c :: cs =>
    if c == '"' then csvScan (!q) cs
    else if c == '\n' && !q then
      let p := csvScan q cs
      (p.1, p.2 + 1)
    else csvScan q cs

/-- Number of CSV records of a string that ends without a trailing newline:
unquoted newlines plus one. -/
def csvRecordCount (s : String) : Nat :=
  (csvScan false s.data).2 + 1

/-- Session status. -/
inductive SessionStatus where
  | in_progress
  | completed
deriving DecidableEq, Repr, Inhabited

/-- One entry of the sessions index list. -/
structure SessionMeta where
  id : String
  name : String
  createdAt : String
  updatedAt : String
  status : Option SessionStatus
deriving DecidableEq, Repr, Inhabited

/-- `LabelingSession` from `src/lib/dataStorage.ts`. -/
structure LabelingSession where
  id : String
  name : String
  createdAt : String
  updatedAt : String
  data : List DataItem
  intent : ClientLabelingIntent
  results : List LabelResult
  status : SessionStatus
deriving DecidableEq, Repr, Inhabited

/-- The browser key-value store as seen by `dataStorage.ts`: the sessions
index list under its own key, and one full record per session key
(JSON serialization is assumed faithful). -/
structure Storage where
  sessions : List SessionMeta
  records : String → Option LabelingSession

/-- `getSession`. -/
def getSession (st : Storage) (sessionId : String) : Option LabelingSession :=
  st.records sessionId

/-- `saveSession`: writes the record under the key derived from the session's
own `id` field. -/
def saveSession (st : Storage) (session : LabelingSession) : Storage :=
  { st with records := fun k => if k = session.id then some session else st.records k }

/-- The partial update object passed to `updateSessionMetadata`. -/
structure MetaUpdates where
  name : Option String
  updatedAt : Option String
  status : Option SessionStatus
deriving DecidableEq, Repr, Inhabited

/-- JavaScript spread `{...session, ...updates}` on an index entry. -/
def applyMetaUpdates (m : SessionMeta) (u : MetaUpdates) : SessionMeta :=
  { m with
    name := (match u.name with | some v => v | none => m.name)
    updatedAt := (match u.updatedAt with | some v => v | none => m.updatedAt)
    status := (match u.status with | some v => some v | none => m.status) }

/-- `updateSessionMetadata`: map over the index, updating entries with the
matching id. -/
def updateSessionMetadata (st : Storage) (sessionId : String)
    (updates : MetaUpdates) : Storage :=
  { st with sessions := (st.sessions.map
      (fun session => if session.id = sessionId then applyMetaUpdates session updates else session)) }

/-- `completeSession` from `src/lib/dataStorage.ts` (`now` stands for
`new Date().toISOString()`). -/
def completeSession (st : Storage) (sessionId now : String) :
    Option LabelingSession × Storage :=
  match getSession st sessionId with
  | none => (none, st)
  | some session =>
    let updatedSession := { session with status := .completed, updatedAt := now }
    let st1 := saveSession st updatedSession
    let st2 := updateSessionMetadata st1 sessionId ⟨none, some now, some .completed⟩
    (some updatedSession, st2)

/-- The record written back by `completeSession`. -/
def completedRecord (s : LabelingSession) (now : String) : LabelingSession :=
  { s with status := .completed, updatedAt := now }

/-- Concrete session used to witness the storage frame theorem. -/
def witSession : LabelingSession :=
  { id := "session-1", name := "n", createdAt := "T0", updatedAt := "T0",
    data := [], intent := ⟨"", [], ""⟩, results := [], status := .in_progress }

/-- Concrete storage used to witness the storage frame theorem. -/
def witStorage : Storage :=
  { sessions :=
      [{ id := "session-1", name := "n", createdAt := "T0", updatedAt := "T0",
         status := some .in_progress }],
    records := fun k => if k = "session-1" then some witSession else none }

/-- A two-category client intent (categories `A` and `B`, first options `a1`
and `b1`) used by several concrete scenarios. -/
def twoCatIntent : ClientLabelingIntent :=
  { datasetDescription := "d"
    labelCategories :=
      [{ type := "A", guideline := "", options := [{ name := "a1", description := "" }] },
       { type := "B", guideline := "", options := [{ name := "b1", description := "" }] }]
    generalGuidelines := "g" }

/-- Results of an item whose two labels use types (`X`, `Y`) outside the
declared categories. -/
def strayTypeResults : List LabelResult :=
  [{ itemId := "item-0", label := "X: v", confidence := 90, reasoning := "r",
     uncertaintyExplanation := none, needsReview := false, needsLLMReasoning := false },
   { itemId := "item-0", label := "Y: w", confidence := 90, reasoning := "r",
     uncertaintyExplanation := none, needsReview := false, needsLLMReasoning := false }]

/-- An orchestrator run of a single item answered with high confidence for
category `A` only. -/
def oneItemApiResult : BatchLabelingResult :=
  labelDataBatch [⟨"some text", "item-0"⟩] ⟨"d", ["A: a1", "B: b1"], "g"⟩
    (fun _ => .parsedSingle ⟨some "A: a1", some 90, some "ok", none⟩) 1

/-- The client pipeline applied to `oneItemApiResult` with a failing backfill
round-trip: the Coverage Enhancer synthesizes a `B` label, whose backfill
fails (confidence becomes 60). -/
def oneItemPipelineResult : BatchLabelingResult :=
  labelDataPipeline oneItemApiResult twoCatIntent [⟨"some text", "item-0"⟩]
    (fun _ => .failure "boom")

/-- An ordinary (unflagged) result sharing its `(itemId, label)` pair with a
flagged one. -/
def c8Unflagged : LabelResult :=
  { itemId := "item-0", label := "L", confidence := 90, reasoning := "real reasoning",
    uncertaintyExplanation := none, needsReview := false, needsLLMReasoning := false }

/-- A flagged (needs-backfill) result sharing its `(itemId, label)` pair with
an earlier unflagged one. -/
def c8Flagged : LabelResult :=
  { itemId := "item-0", label := "L", confidence := 0, reasoning := "[auto]",
    uncertaintyExplanation := none, needsReview := true, needsLLMReasoning := true }

/-- A flagged (needs-backfill) result of the same item whose `(itemId, label)`
pair is unique, so its pair lookup resolves to itself even when the item also
carries a duplicated-pair flagged label. -/
def c8MixedFlagged : LabelResult :=
  { itemId := "item-0", label := "B: b1", confidence := 0, reasoning := "[auto]",
    uncertaintyExplanation := none, needsReview := true, needsLLMReasoning := true }

/-- A chunk response covers a chunk when, if it is a parsed array, it has a
non-null entry at every position of the chunk (other responses raise and are
handled by the fallback path, so they need no coverage condition). -/
def chunkResponseCovered (resp : InferResponse) (len : Nat) : Bool :=
  match resp with
  | .parsedBatch os => (List.range len).all (fun j => (os.getD j none).isSome)
  | _ => true

/-- The Coverage Enhancer's synthesis for one item, written as the spec
describes it (one placeholder per qualifying declared category, in
declaration order), to be compared with the source-shaped `synthForItem`:
under the source's guard, exactly one placeholder is produced for each
declared category with at least one option whose type is absent from the
item's represented types. -/
def coverageSynthesis (intent : ClientLabelingIntent) (itemId : String)
    (itemResults : List LabelResult) : List LabelResult :=
  if intent.labelCategories.length > 1 ∧
      (representedTypes itemResults).length < intent.labelCategories.length then
    intent.labelCategories.filterMap
      (fun category =>
        if category.type ∉ representedTypes itemResults ∧ category.options ≠ [] then
          some (placeholderResult itemId category)
        else none)
  else []

/-- Results covering both declared categories of `twoCatIntent` for one item
(used to witness Coverage Enhancer idempotence). -/
def coveredResults : List LabelResult :=
  [{ itemId := "item-0", label := "A: a1", confidence := 90, reasoning := "r",
     uncertaintyExplanation := none, needsReview := false, needsLLMReasoning := false },
   { itemId := "item-0", label := "B: b1", confidence := 80, reasoning := "r",
     uncertaintyExplanation := none, needsReview := false, needsLLMReasoning := false }]

/-- A one-row result whose label and reasoning contain quotes and a newline,
witnessing the CSV round-trip theorem at a hostile input. -/
def csvWitnessResult : BatchLabelingResult :=
  { results :=
      [{ itemId := "item-0", label := "A \"x\": a1", confidence := 90,
         reasoning := "line1\nline2 \"quoted\"", uncertaintyExplanation := none,
         needsReview := false, needsLLMReasoning := false }],
    completedAt := "", processingTimeMs := 0, totalItems := 1, reviewNeeded := 0 }

/-- C1: the spec claims the repair of a degenerate label such as
`"Bug: Bug"` (with categories `["Issue Type: Bug | Feature"]`) yields
`"Issue Type: Bug"`.  The repair block as written dereferences an unbound
identifier `labelCategories` (the function only receives
`intent.labelCategories`), so at the degenerate input the block raises a
`ReferenceError` that the surrounding try/catch converts into the
`"Error: Needs Manual Review"` fallback; reading the identifier as
`intent.labelCategories` (the evident intent) does produce
`"Issue Type: Bug"`, and an already-valid label passes through unchanged. -/
theorem c1_label_repair_code_bug :
    (labelDataItem ⟨"Some text", "item-0"⟩ ⟨"d", ["Issue Type: Bug | Feature"], "g"⟩
        (.parsedSingle ⟨some "Bug: Bug", some 90, some "ok", none⟩)).label
      = "Error: Needs Manual Review"
  ∧ (labelDataItem ⟨"Some text", "item-0"⟩ ⟨"d", ["Issue Type: Bug | Feature"], "g"⟩
        (.parsedSingle ⟨some "Bug: Bug", some 90, some "ok", none⟩)).confidence = 0
  ∧ (labelDataItem ⟨"Some text", "item-0"⟩ ⟨"d", ["Issue Type: Bug | Feature"], "g"⟩
        (.parsedSingle ⟨some "Bug: Bug", some 90, some "ok", none⟩)).reasoning
      = "The AI model encountered an error while processing this item. Error details: labelCategories is not defined. Please assign a label manually."
  ∧ fixLabelIntended ["Issue Type: Bug | Feature"] "Bug: Bug" = "Issue Type: Bug"
  ∧ (labelDataItem ⟨"Some text", "item-0"⟩ ⟨"d", ["Issue Type: Bug | Feature"], "g"⟩
        (.parsedSingle ⟨some "Issue Type: Bug", some 90, some "ok", none⟩)).label
      = "Issue Type: Bug" := by
  exact ⟨by decide, by decide, by decide, by decide, by decide⟩

/-- C9: a request with a missing `data` or `intent` field, a data array of
length 0 or above 100, or an empty `labelCategories` array is rejected with a
400 response carrying the corresponding descriptive error, and no inference
call is issued. -/
theorem c9_validation_boundary (env : Nat → InferResponse)
    (d : List DataItem) (i : LabelingIntent) :
    (∀ oi : Option LabelingIntent,
      handleLabelingRequest ⟨none, oi⟩ env
        = (.badRequest "Missing required fields: data and intent", 0))
  ∧ (∀ od : Option (List DataItem),
      handleLabelingRequest ⟨od, none⟩ env
        = (.badRequest "Missing required fields: data and intent", 0))
  ∧ (d.length = 0 ∨ d.length > 100 →
      handleLabelingRequest ⟨some d, some i⟩ env
        = (.badRequest "Data must be an array with 1-100 items", 0))
  ∧ (1 ≤ d.length → d.length ≤ 100 → i.labelCategories = [] →
      handleLabelingRequest ⟨some d, some i⟩ env
        = (.badRequest "Intent must include datasetDescription and at least one labelCategory", 0)) := by
  refine ⟨?_, ?_, ?_, ?_⟩
  · intro oi; cases oi <;> rfl
  · intro od; cases od <;> rfl
  · intro h
    simp only [handleLabelingRequest, if_pos h]
  · intro h1 h2 h3
    have hd : ¬(d.length = 0 ∨ d.length > 100) := by omega
    have hi : i.datasetDescription = "" ∨ i.labelCategories.length = 0 :=
      Or.inr (by simp [h3])
    simp only [handleLabelingRequest, if_neg hd, if_pos hi]

/-- Witness for C9 at the boundary inputs: data length 0 and 101, an empty
`labelCategories` array, and a missing field. -/
theorem c9_validation_boundary_witness :
    handleLabelingRequest ⟨some ([] : List DataItem), some ⟨"d", ["A: a1"], "g"⟩⟩
        (fun _ => .failure "e")
      = (.badRequest "Data must be an array with 1-100 items", 0)
  ∧ handleLabelingRequest ⟨some (List.replicate 101 ⟨"t", "x"⟩), some ⟨"d", ["A: a1"], "g"⟩⟩
        (fun _ => .failure "e")
      = (.badRequest "Data must be an array with 1-100 items", 0)
  ∧ handleLabelingRequest ⟨some [⟨"t", "item-0"⟩], some ⟨"d", [], "g"⟩⟩
        (fun _ => .failure "e")
      = (.badRequest "Intent must include datasetDescription and at least one labelCategory", 0)
  ∧ handleLabelingRequest ⟨none, none⟩ (fun _ => .failure "e")
      = (.badRequest "Missing required fields: data and intent", 0) := by
  refine ⟨(c9_validation_boundary (fun _ => .failure "e") [] ⟨"d", ["A: a1"], "g"⟩).2.2.1
            (Or.inl (by decide)),
          (c9_validation_boundary (fun _ => .failure "e") (List.replicate 101 ⟨"t", "x"⟩)
              ⟨"d", ["A: a1"], "g"⟩).2.2.1
            (Or.inr (by simp)),
          (c9_validation_boundary (fun _ => .failure "e") [⟨"t", "item-0"⟩]
              ⟨"d", [], "g"⟩).2.2.2 (by decide) (by decide) rfl,
          (c9_validation_boundary (fun _ => .failure "e") [] ⟨"d", ["A: a1"], "g"⟩).1 none⟩

/-- C10: for an existing id (whose stored record carries that id),
`completeSession` returns the restored record with only `status` and
`updatedAt` changed, stores it back under the same key leaving every other
record key untouched, and rewrites only the matching index entries' `status`
and `updatedAt`; for a missing id it returns `none` and leaves the storage
unchanged. -/
theorem c10_completeSession_frame (st : Storage) (sessionId now : String) :
    (getSession st sessionId = none → completeSession st sessionId now = (none, st))
  ∧ (∀ s : LabelingSession, getSession st sessionId = some s → s.id = sessionId →
      (completeSession st sessionId now).1 = some (completedRecord s now)
    ∧ (completeSession st sessionId now).2.records sessionId = some (completedRecord s now)
    ∧ (∀ k, k ≠ sessionId → (completeSession st sessionId now).2.records k = st.records k)
    ∧ (completeSession st sessionId now).2.sessions = st.sessions.map
        (fun m => if m.id = sessionId then
            { m with updatedAt := now, status := some SessionStatus.completed } else m)
    ∧ (completedRecord s now).id = s.id
    ∧ (completedRecord s now).name = s.name
    ∧ (completedRecord s now).createdAt = s.createdAt
    ∧ (completedRecord s now).data = s.data
    ∧ (completedRecord s now).intent = s.intent
    ∧ (completedRecord s now).results = s.results
    ∧ (completedRecord s now).status = SessionStatus.completed
    ∧ (completedRecord s now).updatedAt = now) := by
  constructor
  · intro h
    simp only [completeSession, h]
  · intro s hs hid
    subst hid
    refine ⟨?_, ?_, ?_, ?_, rfl, rfl, rfl, rfl, rfl, rfl, rfl, rfl⟩
    · simp only [completeSession, hs]
      rfl
    · simp only [completeSession, hs, saveSession, updateSessionMetadata]
      simp [completedRecord]
    · intro k hk
      simp only [completeSession, hs, saveSession, updateSessionMetadata]
      simp [if_neg hk]
    · simp only [completeSession, hs, saveSession, updateSessionMetadata]
      rfl

/-- Witness for C10 on a concrete one-session storage. -/
theorem c10_completeSession_frame_witness :
    (completeSession witStorage "session-1" "T1").1 = some (completedRecord witSession "T1")
  ∧ (completeSession witStorage "session-1" "T1").2.records "session-1"
      = some (completedRecord witSession "T1")
  ∧ (completeSession witStorage "session-1" "T1").2.records "other"
      = witStorage.records "other"
  ∧ completeSession witStorage "nope" "T1" = (none, witStorage) := by
  have h := c10_completeSession_frame witStorage "session-1" "T1"
  have h2 := h.2 witSession (by decide) rfl
  exact ⟨h2.1, h2.2.1, h2.2.2.1 "other" (by decide),
    (c10_completeSession_frame witStorage "nope" "T1").1 (by decide)⟩

/-- C2 counterexample: two items (a count within 1–100) at chunk size 5,
where the chunk's inference call succeeds but returns a truncated (length-1)
array: the orchestrator's output contains no result at all for the second
item, although the claim promises at least one result per item for every
malformed or truncated response. -/
theorem c2_truncated_batch_counterexample :
    ("item-1" ∈ ([⟨"first text", "item-0"⟩, ⟨"second text", "item-1"⟩] : List DataItem).map DataItem.id)
  ∧ (1 ≤ ([⟨"first text", "item-0"⟩, ⟨"second text", "item-1"⟩] : List DataItem).length
      ∧ ([⟨"first text", "item-0"⟩, ⟨"second text", "item-1"⟩] : List DataItem).length ≤ 100)
  ∧ ((labelDataBatch [⟨"first text", "item-0"⟩, ⟨"second text", "item-1"⟩]
        ⟨"d", ["A: a1 | a2"], "g"⟩
        (fun _ => .parsedBatch [some ⟨some "A: a1", some 90, some "ok", none⟩]) 5).results.all
      (fun r => !(r.itemId == "item-1"))) = true := by
  exact ⟨by decide, ⟨by decide, by decide⟩, by decide⟩

/-- C3 counterexample: one item labelled `A` with confidence 90; the Coverage
Enhancer synthesizes a `B` label and its backfill round-trip fails, leaving a
confidence-60 result.  After backfill, one result has confidence < 70 but the
pipeline's `reviewNeeded` is still the stale orchestrator value 0. -/
theorem c3_reviewNeeded_counterexample :
    oneItemPipelineResult.reviewNeeded = 0
  ∧ (oneItemPipelineResult.results.filter (fun r => decide (r.confidence < 70))).length = 1
  ∧ (oneItemPipelineResult.results.filter (·.needsReview)).length = 1 := by
  exact ⟨by decide, by decide, by decide⟩

/-- C7 counterexample: two declared categories `A` and `B`, both with options
and both absent from the item's represented types (`X`, `Y`) — yet the
Coverage Enhancer synthesizes nothing, because the guard
`usedLabelTypes.size < labelCategories.length` fails (2 distinct stray types
against 2 categories). -/
theorem c7_guard_counterexample :
    twoCatIntent.labelCategories.length > 1
  ∧ (∀ c ∈ twoCatIntent.labelCategories, c.options ≠ [] ∧ c.type ∉ representedTypes strayTypeResults)
  ∧ postProcessResults strayTypeResults twoCatIntent [] = strayTypeResults := by
  exact ⟨by decide, by decide, by decide⟩

/-- C8 counterexample: an item with one flagged label whose `(itemId, label)`
pair first occurs at an earlier unflagged result.  The backfill round-trip
fails, but the `findIndex` lookup routes the fallback onto the unflagged
result: the flagged label keeps its placeholder reasoning and its
needs-backfill flag (so the claimed fallback never reaches it). -/
theorem c8_findIndex_counterexample :
    (generateReasoningForLabels [c8Unflagged, c8Flagged] ⟨"", [], ""⟩ [⟨"text", "item-0"⟩]
        (fun _ => .failure "boom"))[1]? = some c8Flagged
  ∧ c8Flagged.needsLLMReasoning = true
  ∧ (generateReasoningForLabels [c8Unflagged, c8Flagged] ⟨"", [], ""⟩ [⟨"text", "item-0"⟩]
        (fun _ => .failure "boom"))[0]? = some (backfillFailUpdate c8Unflagged) := by
  exact ⟨by decide, by decide, by decide⟩

/-- Scanning a concatenation composes states and adds the record counts. -/
theorem csvScan_append (q : Bool) (xs ys : List Char) :
    csvScan q (xs ++ ys) =
      ((csvScan (csvScan q xs).1 ys).1,
        (csvScan q xs).2 + (csvScan (csvScan q xs).1 ys).2) := by
  induction xs generalizing q with
  | nil => simp [csvScan]
  | cons c cs ih =>
    simp only [List.cons_append, csvScan, List.append_eq]
    by_cases h1 : c == '"'
    · simp only [h1, if_true]
      exact ih (!q)
    · by_cases h2 : (c == '\n' && !q) = true
      · simp only [h1, Bool.false_eq_true, if_false, h2, if_true, ih q]
        simp only [Prod.mk.injEq]
        exact ⟨trivial, by omega⟩
      · simp only [h1, Bool.false_eq_true, if_false, h2, if_true]
        exact ih q

/-- A clean segment (no quote, no newline) leaves the out-of-quotes state and
adds no record. -/
theorem csvScan_clean_false (l : List Char) (h : ∀ c ∈ l, c ≠ '"' ∧ c ≠ '\n') :
    csvScan false l = (false, 0) := by
  induction l with
  | nil => rfl
  | cons c cs ih =>
    obtain ⟨h1, h2⟩ := h c (List.mem_cons_self c cs)
    have hq : (c == '"') = false := by simp [h1]
    have hn : (c == '\n') = false := by simp [h2]
    simp [csvScan, hq, hn, ih (fun x hx => h x (List.mem_cons_of_mem _ hx))]

/-- Unfolding `escapeCL` on a cons. -/
theorem escapeCL_cons (c : Char) (cs : List Char) :
    escapeCL (c :: cs) = if c == '"' then '"' :: '"' :: escapeCL cs else c :: escapeCL cs := rfl

/-- Scanning an escaped segment inside quotes stays inside quotes and adds no
record (each doubled quote toggles out and straight back in). -/
theorem csvScan_true_escaped (l : List Char) : csvScan true (escapeCL l) = (true, 0) := by
  induction l with
  | nil => rfl
  | cons c cs ih =>
    rw [escapeCL_cons]
    by_cases h : c == '"'
    · simp [h, csvScan, ih]
    · simp [h, csvScan, ih]

/-- Chaining scans: a 0-record segment just advances the state. -/
theorem scanStep (xs ys : List Char) (q q' : Bool) (hx : csvScan q xs = (q', 0)) :
    csvScan q (xs ++ ys) = csvScan q' ys := by
  rw [csvScan_append, hx]
  simp

/-- A fully quoted cell scans from outside quotes back to outside quotes with
no record. -/
theorem csvScan_quotedCell (s : String) :
    csvScan false ("\"" ++ escapeQuotes s ++ "\"").data = (false, 0) := by
  have hdata : ("\"" ++ escapeQuotes s ++ "\"").data
      = ['"'] ++ (escapeCL s.data ++ ['"']) := by
    simp [escapeQuotes, String.data_append, List.append_assoc]
  rw [hdata, scanStep _ _ false true (by decide),
    scanStep _ _ true true (csvScan_true_escaped s.data)]
  decide

/-- `Nat.digitChar` never yields a quote or a newline. -/
theorem digitChar_clean (n : Nat) : Nat.digitChar n ≠ '"' ∧ Nat.digitChar n ≠ '\n' := by
  by_cases hlt : n < 16
  · interval_cases n <;> decide
  · have h16 : Nat.digitChar n = '*' := by
      unfold Nat.digitChar
      repeat rw [if_neg (by omega)]
    rw [h16]; decide

/-- The digit expansion of a natural number is quote- and newline-free. -/
theorem toDigitsCore_clean (fuel : Nat) : ∀ (n : Nat) (ds : List Char),
    (∀ c ∈ ds, c ≠ '"' ∧ c ≠ '\n') →
    ∀ c ∈ Nat.toDigitsCore 10 fuel n ds, c ≠ '"' ∧ c ≠ '\n' := by
  induction fuel with
  | zero => intro n ds h; simpa [Nat.toDigitsCore] using h
  | succ fuel ih =>
    intro n ds h
    have hd : ∀ c ∈ Nat.digitChar (n % 10) :: ds, c ≠ '"' ∧ c ≠ '\n' := by
      intro c hc
      rcases List.mem_cons.mp hc with h1 | h2
      · subst h1; exact digitChar_clean _
      · exact h _ h2
    have heq : Nat.toDigitsCore 10 (fuel + 1) n ds
        = if n / 10 = 0 then Nat.digitChar (n % 10) :: ds
          else Nat.toDigitsCore 10 fuel (n / 10) (Nat.digitChar (n % 10) :: ds) := rfl
    rw [heq]
    by_cases h0 : n / 10 = 0
    · rw [if_pos h0]; exact hd
    · rw [if_neg h0]; exact ih _ _ hd

/-- `Nat.repr` is quote- and newline-free. -/
theorem natRepr_clean (n : Nat) : ∀ c ∈ (Nat.repr n).data, c ≠ '"' ∧ c ≠ '\n' := by
  intro c hc
  have hdata : (Nat.repr n).data = Nat.toDigits 10 n := rfl
  rw [hdata] at hc
  exact toDigitsCore_clean _ _ _ (by simp) c hc

/-- The string rendering of an integer is quote- and newline-free. -/
theorem intToString_clean (i : Int) : ∀ c ∈ (toString i).data, c ≠ '"' ∧ c ≠ '\n' := by
  intro c hc
  cases i with
  | ofNat n =>
    have hdata : (toString (Int.ofNat n)).data = (Nat.repr n).data := rfl
    rw [hdata] at hc
    exact natRepr_clean n c hc
  | negSucc n =>
    have hdata : (toString (Int.negSucc n)).data = '-' :: (Nat.repr (n + 1)).data := rfl
    rw [hdata] at hc
    rcases List.mem_cons.mp hc with h1 | h2
    · subst h1; decide
    · exact natRepr_clean _ c h2

/-- A CSV data row with a well-formed (quote- and newline-free) item id scans
from outside quotes back to outside quotes with no record boundary, whatever
the label and reasoning contain. -/
theorem csvRow_scan (r : LabelResult)
    (hid : ∀ c ∈ r.itemId.data, c ≠ '"' ∧ c ≠ '\n') :
    csvScan false (csvRow r).data = (false, 0) := by
  have hdata : (csvRow r).data
      = r.itemId.data ++ (",".data ++ (("\"" ++ escapeQuotes r.label ++ "\"").data ++
          (",".data ++ ((toString r.confidence).data ++ (",".data ++
            (("\"" ++ escapeQuotes r.reasoning ++ "\"").data ++ (",".data ++
              (if r.needsReview then "Yes" else "No").data))))))) := by
    simp only [csvRow, joinSep, String.data_append, List.append_assoc]
  rw [hdata,
    scanStep _ _ false false (csvScan_clean_false _ hid),
    scanStep _ _ false false (by decide),
    scanStep _ _ false false (csvScan_quotedCell r.label),
    scanStep _ _ false false (by decide),
    scanStep _ _ false false (csvScan_clean_false _ (intToString_clean r.confidence)),
    scanStep _ _ false false (by decide),
    scanStep _ _ false false (csvScan_quotedCell r.reasoning),
    scanStep _ _ false false (by decide)]
  cases hr : r.needsReview <;> simp [hr] <;> decide

/-- Joining rows that each scan cleanly with newline separators yields
`rows.length - 1` record boundaries and ends outside quotes. -/
theorem joinSep_rows_scan : ∀ (rows : List String), rows ≠ [] →
    (∀ row ∈ rows, csvScan false row.data = (false, 0)) →
    csvScan false (joinSep "\n" rows).data = (false, rows.length - 1) := by
  intro rows
  induction rows with
  | nil => intro h; exact absurd rfl h
  | cons row rest ih =>
    intro _ hall
    cases rest with
    | nil => simpa using hall row (by simp)
    | cons r2 rest2 =>
      have hjoin : (joinSep "\n" (row :: r2 :: rest2)).data
          = row.data ++ ("\n".data ++ (joinSep "\n" (r2 :: rest2)).data) := by
        simp [joinSep, String.data_append, List.append_assoc]
      have hrest := ih (by simp) (fun x hx => hall x (by simp [hx]))
      rw [hjoin, scanStep _ _ false false (hall row (by simp)), csvScan_append,
        show csvScan false ("\n".data) = (false, 1) by decide]
      simp only [Prod.fst, Prod.snd]
      rw [hrest]
      simp only [Prod.mk.injEq, List.length_cons]
      exact ⟨trivial, by omega⟩

/-- C5: for a non-empty results list (with the positional, quote- and
newline-free item ids the uploader generates), the exported CSV is exactly
the header line followed by one row per LabelResult (strings double-quote
escaped), and a quote-aware CSV re-parse counts `results.length + 1` records
— whatever the label and reasoning fields contain. -/
theorem c5_csv_round_trip (res : BatchLabelingResult)
    (hne : res.results ≠ [])
    (hid : ∀ r ∈ res.results, ∀ c ∈ r.itemId.data, c ≠ '"' ∧ c ≠ '\n') :
    exportToCsv res = csvHeader ++ joinSep "\n" (res.results.map csvRow)
  ∧ csvRecordCount (exportToCsv res) = res.results.length + 1 := by
  have hlen : ¬(res.results.length = 0) := by
    simpa [List.length_eq_zero] using hne
  have hexp : exportToCsv res = csvHeader ++ joinSep "\n" (res.results.map csvRow) := by
    simp [exportToCsv, hlen]
  refine ⟨hexp, ?_⟩
  rw [hexp]
  unfold csvRecordCount
  rw [String.data_append, csvScan_append,
    show csvScan false csvHeader.data = (false, 1) by decide]
  have hrows : csvScan false (joinSep "\n" (res.results.map csvRow)).data
      = (false, (res.results.map csvRow).length - 1) := by
    apply joinSep_rows_scan
    · simpa using hne
    · intro row hrow
      obtain ⟨r, hr, hrq⟩ := List.mem_map.mp hrow
      subst hrq
      exact csvRow_scan r (hid r hr)
  simp only [Prod.fst, Prod.snd]
  rw [hrows]
  simp only [List.length_map]
  omega

/-- Witness for C5: a single result whose label and reasoning contain quotes
and an embedded newline still yields exactly 2 CSV records (1 header + 1
row). -/
theorem c5_csv_round_trip_witness :
    csvRecordCount (exportToCsv csvWitnessResult) = 2 := by
  have h := (c5_csv_round_trip csvWitnessResult (by decide) (by decide)).2
  rw [h]
  decide

/-- The grouped fold of `postProcessResults` is the flattening of the
per-item blocks. -/
theorem postProcess_eq (results : List LabelResult)
    (intent : ClientLabelingIntent) (d : List DataItem) :
    postProcessResults results intent d
      = ((groupByItem results).map
          (fun p => p.2 ++ synthForItem intent p.1 p.2)).flatten := by
  unfold postProcessResults
  have key : ∀ (gs : List (String × List LabelResult)) (acc : List LabelResult),
      gs.foldl (fun acc p => acc ++ p.2 ++ synthForItem intent p.1 p.2) acc
        = acc ++ (gs.map (fun p => p.2 ++ synthForItem intent p.1 p.2)).flatten := by
    intro gs
    induction gs with
    | nil => intro acc; simp
    | cons g gs ih =>
      intro acc
      rw [List.foldl_cons, ih, List.map_cons, List.flatten_cons]
      simp [List.append_assoc]
  simpa using key (groupByItem results) []

/-- The per-item synthesis loop equals its filterMap description. -/
theorem synthForItem_eq (intent : ClientLabelingIntent) (itemId : String)
    (itemResults : List LabelResult) :
    synthForItem intent itemId itemResults
      = coverageSynthesis intent itemId itemResults := by
  unfold synthForItem coverageSynthesis
  split
  · have key : ∀ (cats : List LabelCategory) (acc : List LabelResult),
        cats.foldl
          (fun acc category =>
            if category.type ∉ representedTypes itemResults ∧ category.options ≠ [] then
              acc ++ [placeholderResult itemId category]
            else acc) acc
          = acc ++ cats.filterMap
              (fun category =>
                if category.type ∉ representedTypes itemResults ∧ category.options ≠ [] then
                  some (placeholderResult itemId category)
                else none) := by
      intro cats
      induction cats with
      | nil => intro acc; simp
      | cons c cs ih =>
        intro acc
        by_cases hc : c.type ∉ representedTypes itemResults ∧ c.options ≠ []
        · simp [hc, ih, List.filterMap_cons, List.append_assoc]
        · simp [hc, ih, List.filterMap_cons]
    simpa using key intent.labelCategories []
  · rfl

/-- Appending one result to its group grows the grouped contents by exactly
that result. -/
theorem pushGroup_flatten_length (acc : List (String × List LabelResult))
    (r : LabelResult) :
    (((pushGroup acc r).map (fun p => p.2)).flatten).length
      = ((acc.map (fun p => p.2)).flatten).length + 1 := by
  induction acc with
  | nil => simp [pushGroup]
  | cons g rest ih =>
    obtain ⟨k, rs⟩ := g
    by_cases hk : k == r.itemId
    · simp [pushGroup, hk]
      omega
    · simp [pushGroup, hk, ih]
      omega

/-- Grouping preserves the total number of results. -/
theorem groupByItem_flatten_length (results : List LabelResult) :
    (((groupByItem results).map (fun p => p.2)).flatten).length = results.length := by
  unfold groupByItem
  have key : ∀ (rs : List LabelResult) (acc : List (String × List LabelResult)),
      (((rs.foldl pushGroup acc).map (fun p => p.2)).flatten).length
        = ((acc.map (fun p => p.2)).flatten).length + rs.length := by
    intro rs
    induction rs with
    | nil => intro acc; simp
    | cons r rest ih =>
      intro acc
      simp only [List.foldl_cons, ih, pushGroup_flatten_length, List.length_cons]
      omega
  simpa using key results []

/-- C7 (amended): the Coverage Enhancer groups results by item and appends,
after each item's original results (kept in their original order), exactly
one placeholder — first declared option, confidence 0, `needsReview`,
needs-reasoning flag — per declared category with at least one option whose
type is absent from the item's represented types, in declaration order, but
only when more than one category is declared AND the item's distinct
represented types are fewer than the declared categories; otherwise it
appends nothing, even when declared categories are absent. -/
theorem c7_synthesis_amended (results : List LabelResult)
    (intent : ClientLabelingIntent) (d : List DataItem) :
    postProcessResults results intent d
      = ((groupByItem results).map
          (fun p => p.2 ++ coverageSynthesis intent p.1 p.2)).flatten := by
  rw [postProcess_eq]
  simp only [synthForItem_eq]

/-- C6: on a results list where every item already carries at least one label
per declared category (the code's own coverage test: the category type occurs
among the item's represented types), re-running the Coverage Enhancer adds no
synthesized label — its output is exactly the input up to the grouping it
performs, and in particular the length is unchanged. -/
theorem c6_enhancer_idempotent (results : List LabelResult)
    (intent : ClientLabelingIntent) (d : List DataItem)
    (hcov : ∀ p ∈ groupByItem results, ∀ c ∈ intent.labelCategories,
        c.type ∈ representedTypes p.2) :
    postProcessResults results intent d
      = ((groupByItem results).map (fun p => p.2)).flatten
  ∧ (postProcessResults results intent d).length = results.length := by
  have hmain : postProcessResults results intent d
      = ((groupByItem results).map (fun p => p.2)).flatten := by
    rw [postProcess_eq]
    congr 1
    apply List.map_congr_left
    intro p hp
    have hsyn : synthForItem intent p.1 p.2 = [] := by
      rw [synthForItem_eq]
      unfold coverageSynthesis
      split
      · rw [List.filterMap_eq_nil_iff]
        intro c hc
        have : ¬(c.type ∉ representedTypes p.2 ∧ c.options ≠ []) := by
          intro hcon
          exact hcon.1 (hcov p hp c hc)
        simp [this]
      · rfl
    simp [hsyn]
  exact ⟨hmain, by rw [hmain, groupByItem_flatten_length]⟩

/-- Witness for C6: an item covering both declared categories is passed
through unchanged (up to grouping). -/
theorem c6_enhancer_idempotent_witness :
    postProcessResults coveredResults twoCatIntent []
      = ((groupByItem coveredResults).map (fun p => p.2)).flatten
  ∧ (postProcessResults coveredResults twoCatIntent []).length = coveredResults.length :=
  c6_enhancer_idempotent coveredResults twoCatIntent [] (by decide)

/-- The orchestrator's result list is the concatenation of the per-chunk
outputs, in chunk order (the sequential loop never stops early). -/
theorem labelDataBatch_results (items : List DataItem) (intent : LabelingIntent)
    (env : Nat → InferResponse) (b : Nat) :
    (labelDataBatch items intent env b).results
      = ((chunksOf b items).enum.map
          (fun p => processChunk intent p.2 (env p.1))).flatten := by
  have key : ∀ (ps : List (Nat × List DataItem)) (acc : List LabelResult),
      ps.foldl (fun acc p => acc ++ processChunk intent p.2 (env p.1)) acc
        = acc ++ (ps.map (fun p => processChunk intent p.2 (env p.1))).flatten := by
    intro ps
    induction ps with
    | nil => intro acc; simp
    | cons p ps ih =>
      intro acc
      rw [List.foldl_cons, ih, List.map_cons, List.flatten_cons]
      simp [List.append_assoc]
  simpa [labelDataBatch] using key (chunksOf b items).enum []

/-- A successfully built batch result carries the item's id and the
`confidence < 70` review marker. -/
theorem batchItemResult_ok_inv (item : DataItem) (o : ParsedLabel) (r : LabelResult)
    (h : batchItemResult item o = .ok r) :
    r.needsReview = decide (r.confidence < 70) ∧ r.itemId = item.id := by
  unfold batchItemResult at h
  split at h
  · simp at h
  · injection h with h1
    subst h1
    exact ⟨rfl, rfl⟩

/-- Every result emitted by the batch mapping loop (also the partial ones
carried by a mid-loop exception) comes from a successful `batchItemResult`
on an item of the chunk. -/
theorem mapBatchResults_inv (os : List (Option ParsedLabel)) :
    ∀ (chunk : List DataItem) (idx : Nat),
      (∀ rs, mapBatchResults os chunk idx = .ok rs →
        ∀ r ∈ rs, ∃ item ∈ chunk, ∃ o, batchItemResult item o = .ok r)
    ∧ (∀ msg doneRs, mapBatchResults os chunk idx = .error (msg, doneRs) →
        ∀ r ∈ doneRs, ∃ item ∈ chunk, ∃ o, batchItemResult item o = .ok r) := by
  intro chunk
  induction chunk with
  | nil =>
    intro idx
    constructor
    · intro rs h r hr
      simp only [mapBatchResults, Except.ok.injEq] at h
      subst h
      simp at hr
    · intro msg doneRs h
      simp only [mapBatchResults] at h
      simp at h
  | cons item rest ih =>
    intro idx
    constructor
    · intro rs h r hr
      simp only [mapBatchResults] at h
      cases hos : os.getD idx none with
      | none =>
        simp only [hos] at h
        obtain ⟨it, hit, o, ho⟩ := (ih (idx + 1)).1 rs h r hr
        exact ⟨it, List.mem_cons_of_mem _ hit, o, ho⟩
      | some o =>
        simp only [hos] at h
        cases hbi : batchItemResult item o with
        | error msg =>
          simp [hbi] at h
        | ok r0 =>
          simp only [hbi] at h
          cases hrec : mapBatchResults os rest (idx + 1) with
          | ok rs0 =>
            simp only [hrec, Except.ok.injEq] at h
            subst h
            rcases List.mem_cons.mp hr with h2 | h2
            · subst h2
              exact ⟨item, List.mem_cons_self _ _, o, hbi⟩
            · obtain ⟨it, hit, o2, ho2⟩ := (ih (idx + 1)).1 rs0 hrec r h2
              exact ⟨it, List.mem_cons_of_mem _ hit, o2, ho2⟩
          | error p =>
            obtain ⟨m1, done1⟩ := p
            simp [hrec] at h
    · intro msg doneRs h r hr
      simp only [mapBatchResults] at h
      cases hos : os.getD idx none with
      | none =>
        simp only [hos] at h
        obtain ⟨it, hit, o, ho⟩ := (ih (idx + 1)).2 msg doneRs h r hr
        exact ⟨it, List.mem_cons_of_mem _ hit, o, ho⟩
      | some o =>
        simp only [hos] at h
        cases hbi : batchItemResult item o with
        | error m0 =>
          simp only [hbi, Except.error.injEq, Prod.mk.injEq] at h
          rw [← h.2] at hr
          simp at hr
        | ok r0 =>
          simp only [hbi] at h
          cases hrec : mapBatchResults os rest (idx + 1) with
          | ok rs0 =>
            simp [hrec] at h
          | error p =>
            obtain ⟨m1, done1⟩ := p
            simp only [hrec, Except.error.injEq, Prod.mk.injEq] at h
            rw [← h.2] at hr
            rcases List.mem_cons.mp hr with h2 | h2
            · subst h2
              exact ⟨item, List.mem_cons_self _ _, o, hbi⟩
            · obtain ⟨it, hit, o2, ho2⟩ := (ih (idx + 1)).2 m1 done1 hrec r h2
              exact ⟨it, List.mem_cons_of_mem _ hit, o2, ho2⟩

/-- Every result of `labelDataItem` carries the item's id and the
`confidence < 70` review marker. -/
theorem labelDataItem_inv (item : DataItem) (intent : LabelingIntent)
    (resp : InferResponse) :
    (labelDataItem item intent resp).itemId = item.id
  ∧ (labelDataItem item intent resp).needsReview
      = decide ((labelDataItem item intent resp).confidence < 70) := by
  cases resp with
  | failure msg => exact ⟨rfl, rfl⟩
  | parsedBatch os => exact ⟨rfl, rfl⟩
  | parsedSingle o =>
    by_cases hd : degenerateParts (labelOrEmpty o)
    · simp only [labelDataItem, hd, if_true]
      exact ⟨rfl, rfl⟩
    · simp only [labelDataItem, hd, Bool.false_eq_true, if_false]
      exact ⟨trivial, trivial⟩

/-- Every result a chunk contributes satisfies the `confidence < 70` review
marker invariant. -/
theorem processChunk_inv (intent : LabelingIntent) (chunk : List DataItem)
    (resp : InferResponse) :
    ∀ r ∈ processChunk intent chunk resp,
      r.needsReview = decide (r.confidence < 70) := by
  intro r hr
  match chunk with
  | [] =>
    cases resp with
    | failure msg => simp [processChunk] at hr
    | parsedSingle o => simp [processChunk] at hr
    | parsedBatch os => simp [processChunk, mapBatchResults] at hr
  | [x] =>
    simp only [processChunk, List.mem_singleton] at hr
    subst hr
    exact (labelDataItem_inv x intent resp).2
  | x :: y :: rest =>
    cases resp with
    | failure msg =>
      simp only [processChunk, List.mem_map] at hr
      obtain ⟨it, _, heq⟩ := hr
      subst heq
      rfl
    | parsedSingle o =>
      simp only [processChunk, List.mem_map] at hr
      obtain ⟨it, _, heq⟩ := hr
      subst heq
      rfl
    | parsedBatch os =>
      simp only [processChunk] at hr
      cases hm : mapBatchResults os (x :: y :: rest) 0 with
      | ok rs =>
        simp only [hm] at hr
        obtain ⟨it, _, o, ho⟩ := (mapBatchResults_inv os (x :: y :: rest) 0).1 rs hm r hr
        exact (batchItemResult_ok_inv it o r ho).1
      | error p =>
        obtain ⟨m1, done1⟩ := p
        simp only [hm] at hr
        rcases List.mem_append.mp hr with h2 | h2
        · obtain ⟨it, _, o, ho⟩ := (mapBatchResults_inv os (x :: y :: rest) 0).2 m1 done1 hm r h2
          exact (batchItemResult_ok_inv it o r ho).1
        · obtain ⟨it, _, heq⟩ := List.mem_map.mp h2
          subst heq
          rfl

/-- C3 (amended): the orchestrator's `reviewNeeded` equals the count of its
results with confidence below 70 (its results all satisfy
`needsReview = confidence < 70`); the client pipeline (coverage enhancement
plus backfill) replaces the results but leaves `reviewNeeded` untouched, so
after backfill it can differ from the below-70 count; a human label update
recomputes `reviewNeeded` as the count of results still marked
`needsReview`. -/
theorem c3_reviewNeeded_amended :
    (∀ (items : List DataItem) (intent : LabelingIntent) (env : Nat → InferResponse)
        (b : Nat),
      (labelDataBatch items intent env b).reviewNeeded
        = ((labelDataBatch items intent env b).results.filter
            (fun r => decide (r.confidence < 70))).length)
  ∧ (∀ (resultData : BatchLabelingResult) (intent : ClientLabelingIntent)
        (data : List DataItem) (oracle : String → BackfillOutcome),
      (labelDataPipeline resultData intent data oracle).reviewNeeded
        = resultData.reviewNeeded)
  ∧ (∀ (res : BatchLabelingResult) (itemId newLabel : String),
      (updateLabel res itemId newLabel).reviewNeeded
        = ((updateLabel res itemId newLabel).results.filter (·.needsReview)).length) := by
  refine ⟨?_, fun _ _ _ _ => rfl, fun _ _ _ => rfl⟩
  intro items intent env b
  have hinv : ∀ r ∈ (labelDataBatch items intent env b).results,
      r.needsReview = decide (r.confidence < 70) := by
    intro r hr
    rw [labelDataBatch_results] at hr
    obtain ⟨l, hl, hrl⟩ := List.mem_flatten.mp hr
    obtain ⟨p, _, hpl⟩ := List.mem_map.mp hl
    subst hpl
    exact processChunk_inv intent p.2 (env p.1) r hrl
  have hfil : (labelDataBatch items intent env b).results.filter (·.needsReview)
      = (labelDataBatch items intent env b).results.filter
          (fun r => decide (r.confidence < 70)) := by
    apply List.filter_congr
    intro r hr
    exact hinv r hr
  calc (labelDataBatch items intent env b).reviewNeeded
      = ((labelDataBatch items intent env b).results.filter (·.needsReview)).length := rfl
    _ = _ := by rw [hfil]

/-- C4: chunk failure isolation.  The orchestrator's output is the
concatenation of the per-chunk outputs, so processing always continues past a
failed chunk; a multi-item chunk whose call throws — or whose mapping loop
throws mid-way — appends exactly one fallback result per item of the chunk
(after the results already pushed), and the fallback carries the item's id,
the `"Error: Needs Manual Review"` label, confidence 0, `needsReview`, and
the captured error message inside its reasoning (likewise for the single-item
path's fallback). -/
theorem c4_chunk_failure_isolation :
    (∀ (items : List DataItem) (intent : LabelingIntent) (env : Nat → InferResponse)
        (b : Nat),
      (labelDataBatch items intent env b).results
        = ((chunksOf b items).enum.map
            (fun p => processChunk intent p.2 (env p.1))).flatten)
  ∧ (∀ (intent : LabelingIntent) (chunk : List DataItem) (msg : String),
      1 < chunk.length →
      processChunk intent chunk (.failure msg)
        = chunk.map (fun it => batchErrorResult it msg))
  ∧ (∀ (intent : LabelingIntent) (chunk : List DataItem)
        (os : List (Option ParsedLabel)) (msg : String) (doneRs : List LabelResult),
      1 < chunk.length →
      mapBatchResults os chunk 0 = .error (msg, doneRs) →
      processChunk intent chunk (.parsedBatch os)
        = doneRs ++ chunk.map (fun it => batchErrorResult it msg))
  ∧ (∀ (item : DataItem) (intent : LabelingIntent) (msg : String),
      labelDataItem item intent (.failure msg) = itemErrorResult item msg)
  ∧ (∀ (it : DataItem) (msg : String),
      (batchErrorResult it msg).itemId = it.id
    ∧ (batchErrorResult it msg).label = "Error: Needs Manual Review"
    ∧ (batchErrorResult it msg).confidence = 0
    ∧ (batchErrorResult it msg).needsReview = true
    ∧ ∃ pre post, (batchErrorResult it msg).reasoning = pre ++ msg ++ post)
  ∧ (∀ (item : DataItem) (msg : String),
      (itemErrorResult item msg).itemId = item.id
    ∧ (itemErrorResult item msg).label = "Error: Needs Manual Review"
    ∧ (itemErrorResult item msg).confidence = 0
    ∧ (itemErrorResult item msg).needsReview = true
    ∧ ∃ pre post, (itemErrorResult item msg).reasoning = pre ++ msg ++ post) := by
  refine ⟨labelDataBatch_results, ?_, ?_, fun _ _ _ => rfl, ?_, ?_⟩
  · intro intent chunk msg hlen
    match chunk with
    | [] => simp at hlen
    | [x] => simp at hlen
    | x :: y :: rest => rfl
  · intro intent chunk os msg doneRs hlen hmap
    match chunk with
    | [] => simp at hlen
    | [x] => simp at hlen
    | x :: y :: rest =>
      simp only [processChunk, hmap]
  · intro it msg
    exact ⟨rfl, rfl, rfl, rfl,
      ⟨"The AI model encountered an error while processing this batch of items. Error details: ",
        ". Please assign a label manually.", rfl⟩⟩
  · intro item msg
    exact ⟨rfl, rfl, rfl, rfl,
      ⟨"The AI model encountered an error while processing this item. Error details: ",
        ". Please assign a label manually.", rfl⟩⟩

/-- Witness for C4: a two-item chunk whose call throws gets two fallbacks;
a two-item chunk whose mapping loop throws at its first item (degenerate
label, unbound `labelCategories`) gets the partial results plus two
fallbacks carrying the ReferenceError message. -/
theorem c4_chunk_failure_isolation_witness :
    processChunk ⟨"d", ["A: a1"], "g"⟩ [⟨"t1", "item-0"⟩, ⟨"t2", "item-1"⟩]
        (.failure "net down")
      = ([⟨"t1", "item-0"⟩, ⟨"t2", "item-1"⟩] : List DataItem).map
          (fun it => batchErrorResult it "net down")
  ∧ processChunk ⟨"d", ["A: a1"], "g"⟩ [⟨"t1", "item-0"⟩, ⟨"t2", "item-1"⟩]
        (.parsedBatch [some ⟨some "Bug: Bug", some 90, some "ok", none⟩])
      = [] ++ ([⟨"t1", "item-0"⟩, ⟨"t2", "item-1"⟩] : List DataItem).map
          (fun it => batchErrorResult it referenceErrorMsg) := by
  constructor
  · exact c4_chunk_failure_isolation.2.1 ⟨"d", ["A: a1"], "g"⟩
      [⟨"t1", "item-0"⟩, ⟨"t2", "item-1"⟩] "net down" (by decide)
  · exact c4_chunk_failure_isolation.2.2.1 ⟨"d", ["A: a1"], "g"⟩
      [⟨"t1", "item-0"⟩, ⟨"t2", "item-1"⟩]
      [some ⟨some "Bug: Bug", some 90, some "ok", none⟩] referenceErrorMsg []
      (by decide) rfl

/-- Chunking is fuel-insensitive once the fuel covers the list length. -/
theorem chunksOfFuel_congr {α : Type} (b : Nat) (hb : 0 < b) :
    ∀ (f1 f2 : Nat) (xs : List α), xs.length ≤ f1 → xs.length ≤ f2 →
      chunksOfFuel f1 b xs = chunksOfFuel f2 b xs := by
  intro f1
  induction f1 with
  | zero =>
    intro f2 xs h1 _
    have hx : xs = [] := List.length_eq_zero.mp (Nat.le_zero.mp h1)
    subst hx
    cases f2 <;> rfl
  | succ f1 ih =>
    intro f2 xs h1 h2
    cases xs with
    | nil => cases f2 <;> rfl
    | cons y ys =>
      cases f2 with
      | zero => simp at h2
      | succ f2 =>
        have e1 : chunksOfFuel (f1 + 1) b (y :: ys)
            = (y :: ys).take b :: chunksOfFuel f1 b ((y :: ys).drop b) := rfl
        have e2 : chunksOfFuel (f2 + 1) b (y :: ys)
            = (y :: ys).take b :: chunksOfFuel f2 b ((y :: ys).drop b) := rfl
        rw [e1, e2]
        congr 1
        apply ih
        · simp only [List.length_drop, List.length_cons] at *
          omega
        · simp only [List.length_drop, List.length_cons] at *
          omega

/-- Unfolding one chunk for a positive chunk size. -/
theorem chunksOf_cons {α : Type} (b : Nat) (hb : 0 < b) (xs : List α)
    (hxs : xs ≠ []) :
    chunksOf b xs = xs.take b :: chunksOf b (xs.drop b) := by
  cases xs with
  | nil => exact absurd rfl hxs
  | cons y ys =>
    have e1 : chunksOf b (y :: ys)
        = (y :: ys).take b :: chunksOfFuel ys.length b ((y :: ys).drop b) := rfl
    rw [e1]
    congr 1
    apply chunksOfFuel_congr b hb
    · simp only [List.length_drop, List.length_cons]
      omega
    · rfl

/-- The chunks of a list concatenate back to the list. -/
theorem chunksOf_flatten {α : Type} (b : Nat) (hb : 0 < b) (xs : List α) :
    (chunksOf b xs).flatten = xs := by
  have key : ∀ (n : Nat) (xs : List α), xs.length ≤ n → (chunksOf b xs).flatten = xs := by
    intro n
    induction n with
    | zero =>
      intro xs h
      have hx : xs = [] := List.length_eq_zero.mp (Nat.le_zero.mp h)
      subst hx
      rfl
    | succ n ih =>
      intro xs h
      cases xs with
      | nil => rfl
      | cons y ys =>
        have hd : ((y :: ys).drop b).length ≤ n := by
          simp only [List.length_drop, List.length_cons] at *
          omega
        rw [chunksOf_cons b hb _ (by simp), List.flatten_cons, ih _ hd,
          List.take_append_drop]
  exact key xs.length xs (le_refl _)

/-- When the parsed array covers every position of the chunk, a successful
mapping loop emits a result for every item of the chunk. -/
theorem mapBatchResults_covers (os : List (Option ParsedLabel)) :
    ∀ (chunk : List DataItem) (idx : Nat) (rs : List LabelResult),
      mapBatchResults os chunk idx = .ok rs →
      (∀ j, j < chunk.length → (os.getD (idx + j) none).isSome) →
      ∀ item ∈ chunk, ∃ r ∈ rs, r.itemId = item.id := by
  intro chunk
  induction chunk with
  | nil =>
    intro idx rs _ _ item hitem
    simp at hitem
  | cons item0 rest ih =>
    intro idx rs h hcov item hitem
    have h0 : (os.getD (idx + 0) none).isSome := hcov 0 (by simp)
    rw [Nat.add_zero] at h0
    obtain ⟨o, hos⟩ := Option.isSome_iff_exists.mp h0
    simp only [mapBatchResults, hos] at h
    cases hbi : batchItemResult item0 o with
    | error msg => simp [hbi] at h
    | ok r0 =>
      simp only [hbi] at h
      cases hrec : mapBatchResults os rest (idx + 1) with
      | error p => simp [hrec] at h
      | ok rs0 =>
        simp only [hrec, Except.ok.injEq] at h
        subst h
        rcases List.mem_cons.mp hitem with h2 | h2
        · subst h2
          exact ⟨r0, List.mem_cons_self _ _, (batchItemResult_ok_inv item o r0 hbi).2⟩
        · have hcov2 : ∀ j, j < rest.length → (os.getD (idx + 1 + j) none).isSome := by
            intro j hj
            have := hcov (j + 1) (by simpa using Nat.succ_lt_succ hj)
            have he : idx + (j + 1) = idx + 1 + j := by omega
            rwa [he] at this
          obtain ⟨r, hr, hrid⟩ := ih (idx + 1) rs0 hrec hcov2 item h2
          exact ⟨r, List.mem_cons_of_mem _ hr, hrid⟩

/-- A chunk whose response covers it (or is a size-1 chunk, or throws)
contributes at least one result per item. -/
theorem processChunk_covers (intent : LabelingIntent) (chunk : List DataItem)
    (resp : InferResponse)
    (hcov : 1 < chunk.length → chunkResponseCovered resp chunk.length = true) :
    ∀ item ∈ chunk, ∃ r ∈ processChunk intent chunk resp, r.itemId = item.id := by
  intro item hitem
  match chunk with
  | [] => simp at hitem
  | [x] =>
    rcases List.mem_singleton.mp hitem with rfl
    exact ⟨labelDataItem item intent resp, List.mem_singleton.mpr rfl,
      (labelDataItem_inv item intent resp).1⟩
  | x :: y :: rest =>
    cases resp with
    | failure msg =>
      exact ⟨batchErrorResult item msg,
        List.mem_map.mpr ⟨item, hitem, rfl⟩, rfl⟩
    | parsedSingle o =>
      exact ⟨batchErrorResult item "Failed to parse AI batch response",
        List.mem_map.mpr ⟨item, hitem, rfl⟩, rfl⟩
    | parsedBatch os =>
      have hc : chunkResponseCovered (.parsedBatch os) (x :: y :: rest).length = true :=
        hcov (by simp)
      have hcov2 : ∀ j, j < (x :: y :: rest).length → (os.getD (0 + j) none).isSome := by
        intro j hj
        simp only [chunkResponseCovered, List.all_eq_true] at hc
        have := hc j (List.mem_range.mpr hj)
        simpa using this
      cases hm : mapBatchResults os (x :: y :: rest) 0 with
      | ok rs =>
        obtain ⟨r, hr, hrid⟩ :=
          mapBatchResults_covers os (x :: y :: rest) 0 rs hm hcov2 item hitem
        refine ⟨r, ?_, hrid⟩
        simp only [processChunk, hm]
        exact hr
      | error p =>
        obtain ⟨m1, done1⟩ := p
        refine ⟨batchErrorResult item m1, ?_, rfl⟩
        simp only [processChunk, hm]
        exact List.mem_append.mpr (Or.inr (List.mem_map.mpr ⟨item, hitem, rfl⟩))

/-- C2 (amended): every item of a size-1 chunk receives a result, and every
item of a throwing chunk receives a fallback; an item of a successful
multi-item chunk receives a result only if the parsed array has a non-null
entry at its position.  Hence per-item totality holds for any chunk size
whenever every multi-item chunk's parsed array covers each position of its
chunk — in particular unconditionally for chunk size 1. -/
theorem c2_per_item_totality_amended (items : List DataItem)
    (intent : LabelingIntent) (env : Nat → InferResponse) (b : Nat)
    (hb : 0 < b)
    (hcov : ∀ p ∈ (chunksOf b items).enum, 1 < p.2.length →
        chunkResponseCovered (env p.1) p.2.length = true) :
    ∀ item ∈ items,
      ∃ r ∈ (labelDataBatch items intent env b).results, r.itemId = item.id := by
  intro item hitem
  have hflat : item ∈ (chunksOf b items).flatten := by
    rw [chunksOf_flatten b hb]
    exact hitem
  obtain ⟨chunk, hchunk, hic⟩ := List.mem_flatten.mp hflat
  obtain ⟨i, hi⟩ := List.getElem?_of_mem hchunk
  have henum : (i, chunk) ∈ (chunksOf b items).enum := by
    have he : (chunksOf b items).enum[i]? = some (i, chunk) := by
      rw [List.getElem?_enum, hi]
      rfl
    exact List.getElem?_mem he
  obtain ⟨r, hr, hrid⟩ :=
    processChunk_covers intent chunk (env i)
      (fun hlen => hcov (i, chunk) henum hlen) item hic
  refine ⟨r, ?_, hrid⟩
  rw [labelDataBatch_results]
  exact List.mem_flatten.mpr
    ⟨processChunk intent chunk (env i),
     List.mem_map.mpr ⟨(i, chunk), henum, rfl⟩, hr⟩

/-- Witness for C2 (amended): the truncated-array scenario repaired — a full
two-entry array at chunk size 5 does produce a result for the second item. -/
theorem c2_per_item_totality_amended_witness :
    ∃ r ∈ (labelDataBatch [⟨"first text", "item-0"⟩, ⟨"second text", "item-1"⟩]
        ⟨"d", ["A: a1 | a2"], "g"⟩
        (fun _ => .parsedBatch [some ⟨some "A: a1", some 90, some "ok", none⟩,
                                some ⟨some "A: a2", some 88, some "ok", none⟩]) 5).results,
      r.itemId = "item-1" :=
  c2_per_item_totality_amended
    [⟨"first text", "item-0"⟩, ⟨"second text", "item-1"⟩]
    ⟨"d", ["A: a1 | a2"], "g"⟩
    (fun _ => .parsedBatch [some ⟨some "A: a1", some 90, some "ok", none⟩,
                            some ⟨some "A: a2", some 88, some "ok", none⟩])
    5 (by decide) (by decide) ⟨"second text", "item-1"⟩ (by decide)

/-- `pushPending` preserves a per-entry invariant, given the new entry
satisfies it under the pushed key. -/
theorem pushPending_forall (P : String → Nat × String → Prop) :
    ∀ (acc : List (String × DataItem × List (Nat × String))) (kid : String)
      (item : DataItem) (e : Nat × String),
      (∀ t ∈ acc, ∀ x ∈ t.2.2, P t.1 x) → P kid e →
      ∀ t ∈ pushPending acc kid item e, ∀ x ∈ t.2.2, P t.1 x := by
  intro acc
  induction acc with
  | nil =>
    intro kid item e _ hnew t ht x hx
    simp only [pushPending, List.mem_singleton] at ht
    subst ht
    rcases List.mem_singleton.mp hx with rfl
    exact hnew
  | cons g rest ih =>
    obtain ⟨k, it, ls⟩ := g
    intro kid item e hacc hnew t ht x hx
    by_cases hk : k == kid
    · simp only [pushPending, hk, if_true] at ht
      rcases List.mem_cons.mp ht with rfl | htr
      · rcases List.mem_append.mp hx with hx1 | hx2
        · exact hacc (k, it, ls) (List.mem_cons_self _ _) x hx1
        · rcases List.mem_singleton.mp hx2 with rfl
          have hkk : k = kid := by simpa using hk
          rw [hkk]
          exact hnew
      · exact hacc t (List.mem_cons_of_mem _ htr) x hx
    · simp only [pushPending, hk, Bool.false_eq_true, if_false] at ht
      rcases List.mem_cons.mp ht with rfl | htr
      · exact hacc (k, it, ls) (List.mem_cons_self _ _) x hx
      · exact ih kid item e (fun t2 ht2 => hacc t2 (List.mem_cons_of_mem _ ht2)) hnew
          t htr x hx

/-- `pushPending` keeps every existing entry reachable under its key. -/
theorem pushPending_mono (k : String) (x : Nat × String) :
    ∀ (acc : List (String × DataItem × List (Nat × String))) (kid : String)
      (item : DataItem) (e : Nat × String),
      (∃ t ∈ acc, t.1 = k ∧ x ∈ t.2.2) →
      ∃ t ∈ pushPending acc kid item e, t.1 = k ∧ x ∈ t.2.2 := by
  intro acc
  induction acc with
  | nil =>
    intro kid item e h
    obtain ⟨t, ht, _⟩ := h
    simp at ht
  | cons g rest ih =>
    obtain ⟨k0, it0, ls0⟩ := g
    intro kid item e h
    obtain ⟨t, ht, ht1, htx⟩ := h
    by_cases hk : k0 == kid
    · simp only [pushPending, hk, if_true]
      rcases List.mem_cons.mp ht with rfl | htr
      · exact ⟨(k0, it0, ls0 ++ [e]), List.mem_cons_self _ _, ht1,
          List.mem_append.mpr (Or.inl htx)⟩
      · exact ⟨t, List.mem_cons_of_mem _ htr, ht1, htx⟩
    · simp only [pushPending, hk, Bool.false_eq_true, if_false]
      rcases List.mem_cons.mp ht with rfl | htr
      · exact ⟨(k0, it0, ls0), List.mem_cons_self _ _, ht1, htx⟩
      · obtain ⟨t2, ht2, ht21, ht2x⟩ := ih kid item e ⟨t, htr, ht1, htx⟩
        exact ⟨t2, List.mem_cons_of_mem _ ht2, ht21, ht2x⟩

/-- `pushPending` makes the pushed entry reachable under its key. -/
theorem pushPending_adds :
    ∀ (acc : List (String × DataItem × List (Nat × String))) (kid : String)
      (item : DataItem) (e : Nat × String),
      ∃ t ∈ pushPending acc kid item e, t.1 = kid ∧ e ∈ t.2.2 := by
  intro acc
  induction acc with
  | nil =>
    intro kid item e
    exact ⟨(kid, item, [e]), List.mem_singleton.mpr rfl, rfl, List.mem_singleton.mpr rfl⟩
  | cons g rest ih =>
    obtain ⟨k0, it0, ls0⟩ := g
    intro kid item e
    by_cases hk : k0 == kid
    · have hkk : k0 = kid := by simpa using hk
      subst hkk
      have ht : (k0 == k0) = true := by simp
      simp only [pushPending, ht, if_true]
      exact ⟨(k0, it0, ls0 ++ [e]), List.mem_cons_self _ _, rfl,
        List.mem_append.mpr (Or.inr (List.mem_singleton.mpr rfl))⟩
    · simp only [pushPending, hk, Bool.false_eq_true, if_false]
      obtain ⟨t, ht, ht1, htx⟩ := ih kid item e
      exact ⟨t, List.mem_cons_of_mem _ ht, ht1, htx⟩

/-- Reduction of `pendingStep` when the item is unknown. -/
theorem pendingStep_none (results : List LabelResult) (data : List DataItem)
    (acc : List (String × DataItem × List (Nat × String))) (r : LabelResult)
    (hfind : data.find? (fun d => d.id == r.itemId) = none) :
    pendingStep results data acc r = acc := by
  simp only [pendingStep, hfind]

/-- Reduction of `pendingStep` when the pair lookup fails (unreachable in
practice, since the flagged result itself matches). -/
theorem pendingStep_some_none (results : List LabelResult) (data : List DataItem)
    (acc : List (String × DataItem × List (Nat × String))) (r : LabelResult)
    (item : DataItem)
    (hfind : data.find? (fun d => d.id == r.itemId) = some item)
    (hidx : results.findIdx? (fun q => q.itemId == r.itemId && q.label == r.label) = none) :
    pendingStep results data acc r = acc := by
  simp only [pendingStep, hfind, hidx]

/-- Reduction of `pendingStep` when both lookups succeed. -/
theorem pendingStep_some_some (results : List LabelResult) (data : List DataItem)
    (acc : List (String × DataItem × List (Nat × String))) (r : LabelResult)
    (item : DataItem) (j : Nat)
    (hfind : data.find? (fun d => d.id == r.itemId) = some item)
    (hidx : results.findIdx? (fun q => q.itemId == r.itemId && q.label == r.label) = some j) :
    pendingStep results data acc r = pushPending acc r.itemId item (j, r.label) := by
  simp only [pendingStep, hfind, hidx]

/-- A successful pair lookup lands on a result with the looked-up item id and
label. -/
theorem findIdx_pair_inv (results : List LabelResult) (r : LabelResult) (j : Nat)
    (h : results.findIdx? (fun q => q.itemId == r.itemId && q.label == r.label) = some j) :
    ∃ q, results[j]? = some q ∧ q.itemId = r.itemId ∧ q.label = r.label := by
  rw [List.findIdx?_eq_some_iff_findIdx_eq] at h
  obtain ⟨hlt, hidx⟩ := h
  subst hidx
  have hp := @List.findIdx_getElem _
    (fun q => q.itemId == r.itemId && q.label == r.label) results hlt
  simp only [Bool.and_eq_true, beq_iff_eq] at hp
  exact ⟨results[results.findIdx (fun q => q.itemId == r.itemId && q.label == r.label)],
    by simp [List.getElem?_eq_getElem hlt], hp.1, hp.2⟩

/-- Every `(index, label)` entry recorded by the grouping phase points at a
result of the group's item. -/
theorem itemsToProcess_entry_inv (results : List LabelResult) (data : List DataItem) :
    ∀ t ∈ itemsToProcess results data, ∀ x ∈ t.2.2,
      ∃ q, results[x.1]? = some q ∧ q.itemId = t.1 := by
  have key : ∀ (fl : List LabelResult)
      (acc : List (String × DataItem × List (Nat × String))),
      (∀ t ∈ acc, ∀ x ∈ t.2.2, ∃ q, results[x.1]? = some q ∧ q.itemId = t.1) →
      ∀ t ∈ fl.foldl (pendingStep results data) acc, ∀ x ∈ t.2.2,
        ∃ q, results[x.1]? = some q ∧ q.itemId = t.1 := by
    intro fl
    induction fl with
    | nil => intro acc hacc; simpa using hacc
    | cons r fl ih =>
      intro acc hacc
      rw [List.foldl_cons]
      apply ih
      cases hfind : data.find? (fun d => d.id == r.itemId) with
      | none =>
        rw [pendingStep_none results data acc r hfind]
        exact hacc
      | some item =>
        cases hidx : results.findIdx? (fun q => q.itemId == r.itemId && q.label == r.label) with
        | none =>
          rw [pendingStep_some_none results data acc r item hfind hidx]
          exact hacc
        | some j =>
          rw [pendingStep_some_some results data acc r item j hfind hidx]
          apply pushPending_forall (fun k x => ∃ q, results[x.1]? = some q ∧ q.itemId = k)
            acc r.itemId item (j, r.label) hacc
          obtain ⟨q, hq, hqid, _⟩ := findIdx_pair_inv results r j hidx
          exact ⟨q, hq, hqid⟩
  intro t ht
  exact key _ [] (by simp) t ht

/-- A flagged result whose item is found in `data` and whose pair lookup
resolves to its own index `i` yields the entry `(i, label)` in its item's
group. -/
theorem itemsToProcess_contains (results : List LabelResult) (data : List DataItem)
    (i : Nat) (r : LabelResult) (item : DataItem)
    (hi : results[i]? = some r) (hflag : r.needsLLMReasoning = true)
    (hfind : data.find? (fun d => d.id == r.itemId) = some item)
    (hfirst : results.findIdx? (fun q => q.itemId == r.itemId && q.label == r.label) = some i) :
    ∃ t ∈ itemsToProcess results data, t.1 = r.itemId ∧ (i, r.label) ∈ t.2.2 := by
  have hmem : r ∈ results.filter (·.needsLLMReasoning) :=
    List.mem_filter.mpr ⟨List.getElem?_mem hi, hflag⟩
  obtain ⟨l1, l2, hsplit⟩ := List.append_of_mem hmem
  unfold itemsToProcess
  rw [hsplit, List.foldl_append, List.foldl_cons]
  have hadd : ∃ t ∈ pendingStep results data (l1.foldl (pendingStep results data) []) r,
      t.1 = r.itemId ∧ (i, r.label) ∈ t.2.2 := by
    rw [pendingStep_some_some results data _ r item i hfind hfirst]
    exact pushPending_adds _ r.itemId item (i, r.label)
  have hmono : ∀ (fl : List LabelResult)
      (acc : List (String × DataItem × List (Nat × String))),
      (∃ t ∈ acc, t.1 = r.itemId ∧ (i, r.label) ∈ t.2.2) →
      ∃ t ∈ fl.foldl (pendingStep results data) acc, t.1 = r.itemId ∧ (i, r.label) ∈ t.2.2 := by
    intro fl
    induction fl with
    | nil => intro acc h; simpa using h
    | cons s fl ih =>
      intro acc h
      rw [List.foldl_cons]
      apply ih
      cases hf2 : data.find? (fun d => d.id == s.itemId) with
      | none =>
        rw [pendingStep_none results data acc s hf2]
        exact h
      | some it3 =>
        cases hx2 : results.findIdx? (fun q => q.itemId == s.itemId && q.label == s.label) with
        | none =>
          rw [pendingStep_some_none results data acc s it3 hf2 hx2]
          exact h
        | some j =>
          rw [pendingStep_some_some results data acc s it3 j hf2 hx2]
          exact pushPending_mono r.itemId (i, r.label) acc s.itemId it3 (j, s.label) h
  exact hmono l2 _ hadd

/-- `setWith` at another index leaves a position unchanged. -/
theorem setWith_getElem_ne (arr : List LabelResult) (j i : Nat)
    (f : LabelResult → LabelResult) (hne : j ≠ i) :
    (setWith arr j f)[i]? = arr[i]? := by
  unfold setWith
  cases arr[j]? with
  | none => rfl
  | some prev => exact List.getElem?_set_ne hne

/-- `setWith` at an occupied index stores the updated value. -/
theorem setWith_getElem_self (arr : List LabelResult) (i : Nat)
    (f : LabelResult → LabelResult) (v : LabelResult) (hv : arr[i]? = some v) :
    (setWith arr i f)[i]? = some (f v) := by
  unfold setWith
  rw [hv]
  exact List.getElem?_set_self ((List.getElem?_eq_some.mp hv).1)

/-- The failure fallback is idempotent. -/
theorem backfillFailUpdate_idem (v : LabelResult) :
    backfillFailUpdate (backfillFailUpdate v) = backfillFailUpdate v := by
  have hmax : max (60 : Int) (max 60 v.confidence) = max 60 v.confidence := by
    rw [← max_assoc, max_self]
  simp [backfillFailUpdate, hmax]

/-- The failure fold leaves untargeted positions unchanged. -/
theorem applyFail_untouched (i : Nat) :
    ∀ (labels : List (Nat × String)) (arr : List LabelResult),
      (∀ e ∈ labels, e.1 ≠ i) →
      (labels.foldl (fun a p => setWith a p.1 backfillFailUpdate) arr)[i]? = arr[i]? := by
  intro labels
  induction labels with
  | nil => intro arr _; rfl
  | cons e rest ih =>
    intro arr hne
    rw [List.foldl_cons,
      ih _ (fun e2 he2 => hne e2 (List.mem_cons_of_mem _ he2)),
      setWith_getElem_ne _ _ _ _ (hne e (List.mem_cons_self _ _))]

/-- Either branch of `applyItemOutcome` leaves untargeted positions
unchanged. -/
theorem applyItemOutcome_untouched (i : Nat) (outcome : BackfillOutcome) :
    ∀ (labels : List (Nat × String)) (arr : List LabelResult),
      (∀ e ∈ labels, e.1 ≠ i) →
      (applyItemOutcome arr labels outcome)[i]? = arr[i]? := by
  cases outcome with
  | failure msg =>
    intro labels arr hne
    exact applyFail_untouched i labels arr hne
  | success response =>
    intro labels
    induction labels with
    | nil => intro arr _; rfl
    | cons e rest ih =>
      intro arr hne
      simp only [applyItemOutcome, List.foldl_cons]
      have hstep : (match lookupEntry response e.2 with
          | some entry => if entryTruthy entry then setWith arr e.1 (applyEntry entry) else arr
          | none => arr)[i]? = arr[i]? := by
        cases lookupEntry response e.2 with
        | none => rfl
        | some entry =>
          by_cases ht : entryTruthy entry
          · simp only [ht, if_true]
            exact setWith_getElem_ne _ _ _ _ (hne e (List.mem_cons_self _ _))
          · simp only [ht, Bool.false_eq_true, if_false]
      have := ih (match lookupEntry response e.2 with
          | some entry => if entryTruthy entry then setWith arr e.1 (applyEntry entry) else arr
          | none => arr) (fun e2 he2 => hne e2 (List.mem_cons_of_mem _ he2))
      simp only [applyItemOutcome] at this
      rw [this, hstep]

/-- The failure fold drives a targeted position to the (idempotent) failure
fallback of its original value. -/
theorem applyFail_result (i : Nat) (w : LabelResult) :
    ∀ (labels : List (Nat × String)) (arr : List LabelResult),
      (arr[i]? = some w ∨ arr[i]? = some (backfillFailUpdate w)) →
      (∃ lbl, (i, lbl) ∈ labels) →
      (labels.foldl (fun a p => setWith a p.1 backfillFailUpdate) arr)[i]?
        = some (backfillFailUpdate w) := by
  intro labels
  induction labels with
  | nil =>
    intro arr _ hex
    obtain ⟨lbl, hl⟩ := hex
    simp at hl
  | cons e rest ih =>
    intro arr harr hex
    rw [List.foldl_cons]
    by_cases hei : e.1 = i
    · have hnew : (setWith arr e.1 backfillFailUpdate)[i]? = some (backfillFailUpdate w) := by
        rw [hei]
        rcases harr with h | h
        · exact setWith_getElem_self arr i _ w h
        · rw [setWith_getElem_self arr i _ _ h, backfillFailUpdate_idem]
      by_cases hrest : ∃ lbl, (i, lbl) ∈ rest
      · exact ih _ (Or.inr hnew) hrest
      · rw [applyFail_untouched i rest _ ?hne]
        · exact hnew
        case hne =>
          intro e2 he2 hcon
          exact hrest ⟨e2.2, by rw [← hcon]; exact he2⟩
    · have harr2 : (setWith arr e.1 backfillFailUpdate)[i]? = arr[i]? :=
        setWith_getElem_ne _ _ _ _ hei
      obtain ⟨lbl, hl⟩ := hex
      rcases List.mem_cons.mp hl with hh | hh
      · exact absurd (by rw [← hh] : e.1 = i) hei
      · exact ih _ (by rw [harr2]; exact harr) ⟨lbl, hh⟩

/-- Folding the per-item outcomes over the groups drives position `i` (a
flagged result of the failing item) to the failure fallback, provided every
group entry targeting `i` belongs to the failing item's group and some group
of that item records an entry at `i`. -/
theorem backfillFold_result (oracle : String → BackfillOutcome)
    (i : Nat) (r : LabelResult) (msg : String)
    (hkey : oracle r.itemId = .failure msg) :
    ∀ (gs : List (String × DataItem × List (Nat × String))) (arr : List LabelResult),
      (∀ t ∈ gs, ∀ x ∈ t.2.2, x.1 = i → t.1 = r.itemId) →
      ((arr[i]? = some (backfillFailUpdate r))
        ∨ (arr[i]? = some r ∧ ∃ t ∈ gs, t.1 = r.itemId ∧ ∃ lbl, (i, lbl) ∈ t.2.2)) →
      (gs.foldl (fun a p => applyItemOutcome a p.2.2 (oracle p.1)) arr)[i]?
        = some (backfillFailUpdate r) := by
  intro gs
  induction gs with
  | nil =>
    intro arr _ hdisj
    rcases hdisj with h | ⟨_, t, ht, _⟩
    · simpa using h
    · simp at ht
  | cons g rest ih =>
    intro arr hA hdisj
    rw [List.foldl_cons]
    have hA2 : ∀ t ∈ rest, ∀ x ∈ t.2.2, x.1 = i → t.1 = r.itemId :=
      fun t ht => hA t (List.mem_cons_of_mem _ ht)
    by_cases hgi : ∃ lbl, (i, lbl) ∈ g.2.2
    · obtain ⟨lbl, hl⟩ := hgi
      have hg1 : g.1 = r.itemId := hA g (List.mem_cons_self _ _) (i, lbl) hl rfl
      have hres : (applyItemOutcome arr g.2.2 (oracle g.1))[i]?
          = some (backfillFailUpdate r) := by
        rw [hg1, hkey]
        apply applyFail_result i r g.2.2 arr ?hdisj ⟨lbl, hl⟩
        case hdisj =>
          rcases hdisj with h | ⟨h, _⟩
          · exact Or.inr h
          · exact Or.inl h
      exact ih _ hA2 (Or.inl hres)
    · have hres : (applyItemOutcome arr g.2.2 (oracle g.1))[i]? = arr[i]? := by
        apply applyItemOutcome_untouched
        intro e he hcon
        exact hgi ⟨e.2, by rw [← hcon]; exact he⟩
      rcases hdisj with h | ⟨h, t, ht, ht1, lbl, hlb⟩
      · exact ih _ hA2 (Or.inl (by rw [hres]; exact h))
      · rcases List.mem_cons.mp ht with rfl | htr
        · exact absurd ⟨lbl, hlb⟩ hgi
        · exact ih _ hA2 (Or.inr ⟨by rw [hres]; exact h, t, htr, ht1, lbl, hlb⟩)

/-- C8 (amended): for an item present in the uploaded data whose backfill
round-trip fails, every flagged label of that item whose `(itemId, label)`
pair first occurs in the results list at the flagged label itself (the
`findIndex` lookup resolves to its own position) receives the generic
fallback: the canned reasoning string, confidence `max(60, previous)`,
`needsReview = true`, and a cleared needs-backfill flag.  The
first-occurrence proviso is per label: other flagged labels of the item may
have duplicated pairs without affecting this one. -/
theorem c8_backfill_failure_amended (results : List LabelResult)
    (intent : ClientLabelingIntent) (data : List DataItem)
    (oracle : String → BackfillOutcome) (itemId : String) (msg : String)
    (item : DataItem)
    (hfind : data.find? (fun d => d.id == itemId) = some item)
    (hfail : oracle itemId = .failure msg) :
    ∀ (i : Nat) (r : LabelResult), results[i]? = some r →
      r.needsLLMReasoning = true → r.itemId = itemId →
      results.findIdx? (fun q => q.itemId == r.itemId && q.label == r.label) = some i →
      (generateReasoningForLabels results intent data oracle)[i]?
        = some (backfillFailUpdate r) := by
  intro i r hi hflag hid hfirst
  have hne : ¬((results.filter (·.needsLLMReasoning)).length = 0) := by
    have hmem : r ∈ results.filter (·.needsLLMReasoning) :=
      List.mem_filter.mpr ⟨List.getElem?_mem hi, hflag⟩
    intro hcon
    rw [List.length_eq_zero] at hcon
    rw [hcon] at hmem
    simp at hmem
  unfold generateReasoningForLabels
  rw [if_neg hne]
  have hA : ∀ t ∈ itemsToProcess results data, ∀ x ∈ t.2.2, x.1 = i → t.1 = r.itemId := by
    intro t ht x hx hxi
    obtain ⟨q, hq, hqid⟩ := itemsToProcess_entry_inv results data t ht x hx
    rw [hxi, hi] at hq
    have hqr : q = r := by injection hq.symm
    rw [← hqid, hqr]
  have hB := itemsToProcess_contains results data i r item hi hflag
    (by rw [hid]; exact hfind) hfirst
  obtain ⟨t, ht, ht1, hls⟩ := hB
  exact backfillFold_result oracle i r msg (by rw [hid]; exact hfail)
    (itemsToProcess results data) results hA
    (Or.inr ⟨hi, t, ht, ht1, r.label, hls⟩)

/-- Witness for C8 (amended), exercising the mixed item: the same item
carries a duplicated-pair flagged label (whose lookup resolves elsewhere) and
a first-occurring flagged label — the latter still receives the failure
fallback. -/
theorem c8_backfill_failure_amended_witness :
    (generateReasoningForLabels [c8Unflagged, c8Flagged, c8MixedFlagged] twoCatIntent
        [⟨"text", "item-0"⟩] (fun _ => .failure "boom"))[2]?
      = some (backfillFailUpdate c8MixedFlagged) :=
  c8_backfill_failure_amended [c8Unflagged, c8Flagged, c8MixedFlagged] twoCatIntent
    [⟨"text", "item-0"⟩] (fun _ => .failure "boom") "item-0" "boom" ⟨"text", "item-0"⟩
    (by decide) rfl 2 c8MixedFlagged (by decide) (by decide) (by decide) (by decide)
